import Mathlib

/-!
# ngscopeclient: FilterPropertiesDialog

A shallow embedding of `src/ngscopeclient/FilterPropertiesDialog.cpp`:
`FilterPropertiesDialog::FindAllStreams` (the stream catalog) and
`FilterPropertiesDialog::DoRender` (one reconfiguration pass over the inputs and
the parameters of a filter, followed by the default-name update and the
notification of the main window).

Pointers are addresses (`ChannelPtr`), `std::vector` is `List` with `push_back`
as `xs ++ [x]`, and the calls the dialog makes on its collaborators that leave a
mark (`SetInput`, `SetFloatVal`, `SetIntVal`, `SetDefaultName`,
`OnFilterReconfigured`) are recorded, in call order, in a trace of `Event`s.
-/

namespace FilterPropertiesDialog

/-! ## Data model -/

/-- Address of an `OscilloscopeChannel` object (a `Filter` is one too). Two
pointers are equal exactly when they designate the same object. -/
abbrev ChannelPtr := Nat

/-- The pair `StreamDescriptor(m_channel, m_stream)`; `m_channel = none` is the
null pointer. Equality is by pointer and stream index. -/
structure StreamDescriptor where
  m_channel : Option ChannelPtr
  m_stream : Nat
  deriving DecidableEq, Repr

/-- The descriptor `StreamDescriptor(nullptr, 0)`, the "no stream" sentinel. -/
def nullStream : StreamDescriptor := ⟨none, 0⟩

/-- The interface of an `Oscilloscope` that `FindAllStreams` uses. -/
structure Oscilloscope where
  GetChannelCount : Nat
  GetChannel : Nat → ChannelPtr

/-- The graph state `FindAllStreams` reads: `m_parent->GetSession().GetScopes()`,
`Filter::GetAllInstances()` in iteration order, and `GetStreamCount()` of every
channel and filter object. -/
structure Graph where
  scopes : List Oscilloscope
  filters : List ChannelPtr
  GetStreamCount : ChannelPtr → Nat

/-! ## FindAllStreams -/

/-- The loop `for(size_t j=0; j<chan->GetStreamCount(); j++)
streams.push_back(StreamDescriptor(chan, j));`. -/
def pushStreamsOf (g : Graph) (chan : ChannelPtr) (streams : List StreamDescriptor) :
    List StreamDescriptor :=
  (List.range (g.GetStreamCount chan)).foldl
    (fun acc j => acc ++ [StreamDescriptor.mk (some chan) j]) streams

/-- The loop over the channel indices of one scope. -/
def pushScope (g : Graph) (streams : List StreamDescriptor) (scope : Oscilloscope) :
    List StreamDescriptor :=
  (List.range scope.GetChannelCount).foldl
    (fun acc i => pushStreamsOf g (scope.GetChannel i) acc) streams

/-- The method `FilterPropertiesDialog::FindAllStreams(streams)`: appends to `streams` the
null stream, then every stream of every channel of every scope, then every
stream of every filter. -/
def FindAllStreams (g : Graph) (streams : List StreamDescriptor) : List StreamDescriptor :=
  let streams := streams ++ [nullStream]
  let streams := g.scopes.foldl (pushScope g) streams
  g.filters.foldl (fun acc f => pushStreamsOf g f acc) streams

/-- The streams of one producer, in index order. -/
def streamsOf (g : Graph) (chan : ChannelPtr) : List StreamDescriptor :=
  (List.range (g.GetStreamCount chan)).map (fun j => StreamDescriptor.mk (some chan) j)

/-- The streams of all channels of one scope, channel index increasing. -/
def scopeStreams (g : Graph) (scope : Oscilloscope) : List StreamDescriptor :=
  ((List.range scope.GetChannelCount).map (fun i => streamsOf g (scope.GetChannel i))).flatten

/-- The catalog as the spec describes it: sentinel, hardware streams, filter streams. -/
def catalog (g : Graph) : List StreamDescriptor :=
  nullStream :: ((g.scopes.map (scopeStreams g)).flatten ++ (g.filters.map (streamsOf g)).flatten)

/-- Sum of the stream counts of all channels of one scope. -/
def scopeStreamCount (g : Graph) (scope : Oscilloscope) : Nat :=
  ((List.range scope.GetChannelCount).map (fun i => g.GetStreamCount (scope.GetChannel i))).sum

/-! ## The filter being configured -/

/-- The payload of a `FilterParameter`, tagged by its `GetType()`:
`TYPE_FLOAT` holds a double (of the abstract type `D`), `TYPE_INT` an `int64_t`. -/
inductive ParameterValue (D : Type) where
  | float (v : D)
  | int (v : Int)
  | bool (v : Bool)
  | filename (path : String)
  | enum (code : Int)
  | string (s : String)
  | pattern8b10b (symbols : List Nat)
  deriving DecidableEq, Repr

/-- Modelled from the spec: the class `FilterParameter` is not part of the
sources at hand; a parameter is a tagged payload "always paired with a Unit"
(of the abstract type `U`). -/
structure FilterParameter (D U : Type) where
  value : ParameterValue D
  m_unit : U
  deriving DecidableEq, Repr

/-- Modelled from the spec: `FilterParameter::SetFloatVal` is not part of the
sources at hand; "only the payload may be replaced". -/
def FilterParameter.SetFloatVal {D U : Type} (p : FilterParameter D U) (f : D) :
    FilterParameter D U :=
  { p with value := ParameterValue.float f }

/-- Modelled from the spec: `FilterParameter::SetIntVal` is not part of the
sources at hand; "only the payload may be replaced". -/
def FilterParameter.SetIntVal {D U : Type} (p : FilterParameter D U) (i : Int) :
    FilterParameter D U :=
  { p with value := ParameterValue.int i }

/-- The attributes of the node that the base-class dialog shows and edits. -/
structure OscilloscopeChannel where
  m_hwname : String
  m_displayname : String
  m_usingDefaultName : Bool
  deriving DecidableEq, Repr

/-- Modelled from the spec: the class `Filter` is not part of the sources at
hand. A filter has an address, the attributes of a channel, a binding list
("a sequence of N StreamDescriptor values, index-addressed") and a parameter
store ("ordered mapping name -> ParameterValue", a `std::map` listed in
iteration order). -/
structure Filter (D U : Type) where
  self : ChannelPtr
  chan : OscilloscopeChannel
  m_inputs : List StreamDescriptor
  m_parameters : List (String × FilterParameter D U)
  deriving DecidableEq, Repr

namespace Filter

variable {D U : Type}

/-- The call `f->GetInputCount()`. -/
def GetInputCount (f : Filter D U) : Nat := f.m_inputs.length

/-- The call `f->GetInput(i)`; an index out of range yields the null stream. -/
def GetInput (f : Filter D U) (i : Nat) : StreamDescriptor := f.m_inputs.getD i nullStream

/-- Modelled from the spec: `Filter::SetInput` is not part of the sources at
hand; "`setInput(i, candidate)` is accepted unconditionally if `candidate`
passed validation", so the call writes binding `i`. -/
def SetInput (f : Filter D U) (i : Nat) (stream : StreamDescriptor) : Filter D U :=
  { f with m_inputs := f.m_inputs.set i stream }

/-- The call `f->GetParamCount()`. -/
def GetParamCount (f : Filter D U) : Nat := f.m_parameters.length

/-- The call `f->IsUsingDefaultName()`. -/
def IsUsingDefaultName (f : Filter D U) : Bool := f.chan.m_usingDefaultName

/-- The call `f->GetDisplayName()`. -/
def GetDisplayName (f : Filter D U) : String := f.chan.m_displayname

/-- The call `m_channel->GetHwname()`. -/
def GetHwname (f : Filter D U) : String := f.chan.m_hwname

/-- Replaces the payload of the `k`-th parameter of the store (the write
through the reference `it->second`). -/
def setParam (f : Filter D U) (k : Nat) (name : String) (p : FilterParameter D U) :
    Filter D U :=
  { f with m_parameters := f.m_parameters.set k (name, p) }

end Filter

/-! ## The dialog and its collaborators -/

/-- The fields of the base class `ChannelPropertiesDialog` (and of `Dialog`). -/
structure ChannelPropertiesDialog where
  m_title : String
  m_displayName : String
  m_committedDisplayName : String
  deriving DecidableEq, Repr

/-- The state of a `FilterPropertiesDialog`: the base-class fields, the filter
`m_channel` points to, and the pending texts `m_paramTempValues`
(a `std::map<std::string, std::string>`, `none` for an absent key). -/
structure State (D U : Type) where
  base : ChannelPropertiesDialog
  m_channel : Filter D U
  m_paramTempValues : String → Option String

/-- What `Combo(label, items, selection)` hands back: its return value and the
value it leaves in `selection`. -/
structure ComboResult where
  ret : Bool
  selection : Int
  deriving DecidableEq, Repr

/-- What `UnitInputWithImplicitApply(label, currentValue, committedValue, unit)`
hands back: its return value and the values it leaves in the two references. -/
structure UnitInputResult (D : Type) where
  ret : Bool
  currentValue : String
  committedValue : D

/-- Everything `DoRender` calls that is not defined in the file: the virtual
methods of the filter, `StreamDescriptor::GetName`, `Unit::PrettyPrint`, the
conversions between `int64_t` and `double`, the base-class render and the
widgets. The validator is "pure and side-effect-free", a function of the input
index and the candidate. The widgets answer for the user; `Combo` is told which
input it is drawn for, so that two inputs with one label can be answered
differently. The
base-class render edits the base-class fields and the channel attributes; the
binding list and the parameter store are "mutated only through validated
commits". -/
structure Env (D U : Type) where
  ValidateChannel : Nat → StreamDescriptor → Bool
  GetInputName : Nat → String
  defaultName : Filter D U → String
  GetName : StreamDescriptor → String
  PrettyPrint : U → D → String
  int64_to_double : Int → D
  double_to_int64 : D → Int
  baseDoRender : ChannelPropertiesDialog → OscilloscopeChannel →
    Bool × ChannelPropertiesDialog × OscilloscopeChannel
  CollapsingHeader : String → Bool
  Combo : Nat → String → List String → Int → ComboResult
  UnitInputWithImplicitApply : String → String → D → U → UnitInputResult D

/-- Modelled from the spec: `Filter::SetDefaultName` is not part of the sources
at hand; it "regenerate[s] the display name deterministically from the new
bindings/parameters (policy is node-specific, supplied externally)". -/
def SetDefaultName {D U : Type} (env : Env D U) (f : Filter D U) : Filter D U :=
  { f with chan := { f.chan with m_displayname := env.defaultName f } }

/-- The calls of one pass that leave a mark outside the dialog, in call order.
A write to a parameter names the entry of the store it goes to (its position
`k` and its key); `OnFilterReconfigured` carries the filter as it is when the
main window is told. -/
inductive Event (D U : Type) where
  | SetInput (i : Nat) (stream : StreamDescriptor)
  | SetFloatVal (k : Nat) (name : String) (f : D)
  | SetIntVal (k : Nat) (name : String) (i : Int)
  | SetDefaultName
  | OnFilterReconfigured (f : Filter D U)
  deriving DecidableEq, Repr

/-- The event is one of the pass's writes `SetInput` / `SetFloatVal` / `SetIntVal`. -/
def Event.isWrite {D U : Type} : Event D U → Bool
  | Event.SetInput _ _ => true
  | Event.SetFloatVal _ _ _ => true
  | Event.SetIntVal _ _ _ => true
  | _ => false

/-- The event is a call of `m_parent->OnFilterReconfigured`. -/
def Event.isNotify {D U : Type} : Event D U → Bool
  | Event.OnFilterReconfigured _ => true
  | _ => false

/-- The event is a call of `SetFloatVal` or `SetIntVal` on the `k`-th parameter. -/
def Event.onParam {D U : Type} (k : Nat) : Event D U → Bool
  | Event.SetFloatVal j _ _ => j == k
  | Event.SetIntVal j _ _ => j == k
  | _ => false

/-- The running state of one pass: the dialog, the local `reconfigured` and the
calls made so far. -/
structure Pass (D U : Type) where
  dlg : State D U
  reconfigured : Bool
  trace : List (Event D U)

/-! ## DoRender: the inputs -/

/-- The locals `matchingInputs`, `names` and `sel` of the loop over one input. -/
structure Candidates where
  matchingInputs : List StreamDescriptor
  names : List String
  sel : Int
  deriving DecidableEq, Repr

/-- One iteration of `for(auto stream : streams)`. The local `sel` is a C `int`;
a catalog is far shorter than 2^31, so the conversion from `size_t` is exact. -/
def collectStep {D U : Type} (env : Env D U) (f : Filter D U) (i : Nat)
    (c : Candidates) (stream : StreamDescriptor) : Candidates :=
  if !env.ValidateChannel i stream then c
  else
    { matchingInputs := c.matchingInputs ++ [stream]
      names := c.names ++ [env.GetName stream]
      sel := if f.GetInput i = stream then (c.matchingInputs.length : Int) else c.sel }

/-- The loop `for(auto stream : streams)` for input `i`, from
`matchingInputs = []`, `names = []`, `sel = -1`. -/
def collectCandidates {D U : Type} (env : Env D U) (f : Filter D U) (i : Nat)
    (streams : List StreamDescriptor) : Candidates :=
  streams.foldl (collectStep env f i) ⟨[], [], -1⟩

/-- The access `matchingInputs[sel]` with `sel` a C `int`: an index that is
negative or past the end has no defined result. -/
def vectorAt {α : Type} (xs : List α) (sel : Int) : Option α :=
  if 0 ≤ sel then xs[sel.toNat]? else none

/-- The body of `for(size_t i=0; i<f->GetInputCount(); i++)`: build the
candidates, show the combo box, and on a selection write the binding. -/
def renderInput {D U : Type} (env : Env D U) (streams : List StreamDescriptor)
    (st : Pass D U) (i : Nat) : Option (Pass D U) :=
  let c := collectCandidates env st.dlg.m_channel i streams
  let r := env.Combo i (env.GetInputName i) c.names c.sel
  if r.ret then
    match vectorAt c.matchingInputs r.selection with
    | none => none
    | some stream =>
      some { dlg := { st.dlg with m_channel := st.dlg.m_channel.SetInput i stream }
             reconfigured := true
             trace := st.trace ++ [Event.SetInput i stream] }
  else some st

/-- The block "Show inputs (if we have any)". A call of `SetInput` keeps the
number of inputs, so the loop bound is the count on entry. -/
def renderInputs {D U : Type} (env : Env D U) (g : Graph) (st : Pass D U) :
    Option (Pass D U) :=
  if st.dlg.m_channel.GetInputCount ≠ 0 then
    if env.CollapsingHeader "Inputs" then
      let streams := FindAllStreams g []
      (List.range st.dlg.m_channel.GetInputCount).foldlM (renderInput env streams) st
    else some st
  else some st

/-! ## DoRender: the parameters -/

/-- The assignment `m[name] = text` on a `std::map<std::string, std::string>`. -/
def setTemp (m : String → Option String) (name text : String) : String → Option String :=
  fun k => if k = name then some text else m k

/-- The statement `if(m_paramTempValues.find(name) == m_paramTempValues.end())
m_paramTempValues[name] = param.GetUnit().PrettyPrint(nval);`. -/
def seedTemp {D U : Type} (env : Env D U) (m : String → Option String) (name : String)
    (unit : U) (nval : D) : String → Option String :=
  if (m name).isNone then setTemp m name (env.PrettyPrint unit nval) else m

/-- The text the input widget of a parameter is called with: the pending text of
the parameter, or when it has none the printed value `nval`. -/
def pendingText {D U : Type} (env : Env D U) (m : String → Option String) (name : String)
    (unit : U) (nval : D) : String :=
  ((seedTemp env m name unit nval) name).getD ""

/-- The value of `nval` on entry to the input widget: the stored double of a
`TYPE_FLOAT` parameter, the stored integer converted to `double` for a
`TYPE_INT` parameter; the other types have no input widget. -/
def editValue {D U : Type} (env : Env D U) : ParameterValue D → Option D
  | ParameterValue.float v => some v
  | ParameterValue.int v => some (env.int64_to_double v)
  | _ => none

/-- The body of the loop over the parameter store, for its `k`-th entry: the
`switch(param.GetType())` with the cases `TYPE_FLOAT` and `TYPE_INT`; every
other type only draws a text. -/
def renderParam {D U : Type} (env : Env D U) (st : Pass D U) (k : Nat) : Pass D U :=
  match st.dlg.m_channel.m_parameters[k]? with
  | none => st
  | some (name, param) =>
    match param.value with
    | ParameterValue.float v =>
      let nval := v
      let temps := seedTemp env st.dlg.m_paramTempValues name param.m_unit nval
      let r := env.UnitInputWithImplicitApply name ((temps name).getD "") nval param.m_unit
      let temps := setTemp temps name r.currentValue
      if r.ret then
        { dlg := { st.dlg with
                    m_channel := st.dlg.m_channel.setParam k name
                      (param.SetFloatVal r.committedValue)
                    m_paramTempValues := temps }
          reconfigured := true
          trace := st.trace ++ [Event.SetFloatVal k name r.committedValue] }
      else { st with dlg := { st.dlg with m_paramTempValues := temps } }
    | ParameterValue.int v =>
      let nval := env.int64_to_double v
      let temps := seedTemp env st.dlg.m_paramTempValues name param.m_unit nval
      let r := env.UnitInputWithImplicitApply name ((temps name).getD "") nval param.m_unit
      let temps := setTemp temps name r.currentValue
      if r.ret then
        { dlg := { st.dlg with
                    m_channel := st.dlg.m_channel.setParam k name
                      (param.SetIntVal (env.double_to_int64 r.committedValue))
                    m_paramTempValues := temps }
          reconfigured := true
          trace := st.trace ++
            [Event.SetIntVal k name (env.double_to_int64 r.committedValue)] }
      else { st with dlg := { st.dlg with m_paramTempValues := temps } }
    | _ => st

/-- The block "Show parameters (if we have any)": the entries of the store in
iteration order. -/
def renderParams {D U : Type} (env : Env D U) (st : Pass D U) : Pass D U :=
  if st.dlg.m_channel.GetParamCount ≠ 0 then
    if env.CollapsingHeader "Parameters" then
      (List.range st.dlg.m_channel.GetParamCount).foldl (renderParam env) st
    else st
  else st

/-! ## DoRender: name update and notification -/

/-- The statement `if(f->IsUsingDefaultName()) { ... }` inside `if(reconfigured)`. -/
def updateName {D U : Type} (env : Env D U) (st : Pass D U) : Pass D U :=
  if st.dlg.m_channel.IsUsingDefaultName then
    let f := SetDefaultName env st.dlg.m_channel
    { st with
      dlg := { st.dlg with
                m_channel := f
                base := { st.dlg.base with
                          m_committedDisplayName := f.GetDisplayName
                          m_displayName := f.GetDisplayName } }
      trace := st.trace ++ [Event.SetDefaultName] }
  else st

/-- The block `if(reconfigured) { ... m_parent->OnFilterReconfigured(f); }`. -/
def finishPass {D U : Type} (env : Env D U) (st : Pass D U) : Pass D U :=
  if st.reconfigured then
    let st := updateName env st
    { st with trace := st.trace ++ [Event.OnFilterReconfigured st.dlg.m_channel] }
  else st

/-- The state in which the pass proper starts: the title is set, the base-class
render has run, `reconfigured` is false and nothing has been called yet. The
first component is the return value of `ChannelPropertiesDialog::DoRender()`. -/
def startPass {D U : Type} (env : Env D U) (dlg : State D U) : Bool × Pass D U :=
  let base := { dlg.base with m_title := dlg.m_channel.GetHwname }
  let r := env.baseDoRender base dlg.m_channel.chan
  (r.1,
   { dlg := { dlg with base := r.2.1, m_channel := { dlg.m_channel with chan := r.2.2 } }
     reconfigured := false
     trace := [] })

/-- The method `FilterPropertiesDialog::DoRender()`: the return value and the
pass state on return, or `none` when `matchingInputs[sel]` is evaluated out of
range. -/
def DoRender {D U : Type} (env : Env D U) (g : Graph) (dlg : State D U) :
    Option (Bool × Pass D U) :=
  let s := startPass env dlg
  if !s.1 then some (false, s.2)
  else
    match renderInputs env g s.2 with
    | none => none
    | some st => some (true, finishPass env (renderParams env st))

/-! ## The conversion from `int64_t` to `double` -/

/-- The number of binary digits of `a`, for `a` below `2 ^ fuel`. -/
def bitLength : Nat → Nat → Nat
  | 0, _ => 0
  | fuel + 1, a => if a = 0 then 0 else bitLength fuel (a / 2) + 1

/-- The value of the `double` that `double nval = param.GetIntVal();` yields for
the stored integer `v`: the nearest number with 53 significant bits, ties to the
even significand (the rounding of IEEE 754 binary64 hardware; whatever the
rounding, the result has 53 significant bits). For an `int64_t` this value is
itself an integer, and it is `v` whenever `|v| < 2^53`. -/
def roundToDouble (v : Int) : Int :=
  let a := v.natAbs
  let drop := bitLength 64 a - 53
  let q := a / 2 ^ drop
  let r := a % 2 ^ drop
  let q' := if 2 ^ drop < 2 * r ∨ (2 * r = 2 ^ drop ∧ q % 2 = 1) then q + 1 else q
  v.sign * ((q' * 2 ^ drop : Nat) : Int)

/-! ## Concrete graphs, filters and users -/

/-- A user and a node policy over doubles taken as rationals: the validator, the
answers of the combo boxes and the answers of the unit inputs are given; both
headers are open, the base-class render changes nothing and returns true, the
conversions are the ones of the machine (`roundToDouble`, truncation). -/
def demoEnv (validate : Nat → StreamDescriptor → Bool)
    (combo : Nat → List String → Int → ComboResult)
    (unitInput : String → String → Rat → UnitInputResult Rat) : Env Rat Unit where
  ValidateChannel := validate
  GetInputName := fun i => if i = 0 then "din" else "clk"
  defaultName := fun f => if f.m_inputs = [nullStream, nullStream] then "Gain()" else "Gain(...)"
  GetName := fun s => if s.m_channel = none then "NULL" else "stream"
  PrettyPrint := fun _ d => toString d
  int64_to_double := fun v => ((roundToDouble v : Int) : Rat)
  double_to_int64 := fun d => Int.tdiv d.num (d.den : Int)
  baseDoRender := fun b c => (true, b, c)
  CollapsingHeader := fun _ => true
  Combo := fun i _ names sel => combo i names sel
  UnitInputWithImplicitApply := fun name text nval _ => unitInput name text nval

/-- One scope with one channel (address 1, two streams) and two filters
(addresses 2 and 3, one stream each). -/
def demoGraph : Graph where
  scopes := [{ GetChannelCount := 1, GetChannel := fun _ => 1 }]
  filters := [2, 3]
  GetStreamCount := fun c => if c = 1 then 2 else 1

/-- The validator of the scenario: it rejects the second stream of channel 1. -/
def rejectDigital : Nat → StreamDescriptor → Bool :=
  fun _ s => decide (s ≠ StreamDescriptor.mk (some 1) 1)

/-- A validator that starts with `if(stream.m_channel == NULL) return false;`. -/
def rejectNull : Nat → StreamDescriptor → Bool :=
  fun _ s => s.m_channel.isSome

/-- A validator without a test for the filter's own streams. -/
def acceptAll : Nat → StreamDescriptor → Bool :=
  fun _ _ => true

/-- A user who leaves every combo box alone. -/
def comboIdle : Nat → List String → Int → ComboResult :=
  fun _ _ sel => { ret := false, selection := sel }

/-- A user who clicks, in every combo box, the entry that is already selected:
`Combo` returns true and leaves `selection` as it was. -/
def comboSame : Nat → List String → Int → ComboResult :=
  fun _ _ sel => { ret := true, selection := sel }

/-- A user who picks the second entry of every combo box that has one. -/
def comboSecond : Nat → List String → Int → ComboResult :=
  fun _ names sel =>
    if 1 < names.length then { ret := true, selection := 1 } else { ret := false, selection := sel }

/-- A user whose text is not accepted by the unit input. -/
def unitInputRejected : String → String → Rat → UnitInputResult Rat :=
  fun _ text nval => { ret := false, currentValue := text, committedValue := nval }

/-- A user who types `1.5` into every unit input and leaves the field. -/
def unitInputTyped : String → String → Rat → UnitInputResult Rat :=
  fun _ _ _ => { ret := true, currentValue := "1.5", committedValue := 3 / 2 }

/-- A user who types the stored integer `9007199254740993` again and leaves the
field; the text is parsed to the nearest `double`. -/
def unitInputRetyped : String → String → Rat → UnitInputResult Rat :=
  fun _ _ _ => { ret := true, currentValue := "9007199254740993"
                 committedValue := ((roundToDouble 9007199254740993 : Int) : Rat) }

/-- The dialog of filter 3 with the given bindings and parameters, a default
name and no pending text but the given one for `gain`. -/
def demoDialog (inputs : List StreamDescriptor)
    (params : List (String × FilterParameter Rat Unit)) (pending : Option String) :
    State Rat Unit where
  base := { m_title := "", m_displayName := "FILTER1", m_committedDisplayName := "FILTER1" }
  m_channel :=
    { self := 3
      chan := { m_hwname := "FILTER1", m_displayname := "FILTER1", m_usingDefaultName := true }
      m_inputs := inputs
      m_parameters := params }
  m_paramTempValues := fun k => if k = "gain" then pending else none

/-- A `TYPE_FLOAT` parameter named `gain` with the stored value 3.3. -/
def gainParam : String × FilterParameter Rat Unit :=
  ("gain", { value := ParameterValue.float (33 / 10), m_unit := () })

/-- A `TYPE_INT` parameter named `depth` with the stored value 2^53 + 1. -/
def depthParam : String × FilterParameter Rat Unit :=
  ("depth", { value := ParameterValue.int 9007199254740993, m_unit := () })

/-! ## Relating the states of one pass -/

/-- The relation between a state of the pass and a later state of the same
pass, before the name update: the base-class fields, the channel attributes and
the address of the filter are kept, so are the numbers of inputs and of
parameters; the trace has grown by writes only, and `reconfigured` has been set
exactly when the trace has grown. -/
def Advances {D U : Type} (st0 st : Pass D U) : Prop :=
  st.dlg.base = st0.dlg.base ∧
  st.dlg.m_channel.chan = st0.dlg.m_channel.chan ∧
  st.dlg.m_channel.self = st0.dlg.m_channel.self ∧
  st.dlg.m_channel.m_inputs.length = st0.dlg.m_channel.m_inputs.length ∧
  st.dlg.m_channel.m_parameters.length = st0.dlg.m_channel.m_parameters.length ∧
  ∃ ws : List (Event D U), st.trace = st0.trace ++ ws ∧ (∀ e ∈ ws, e.isWrite = true) ∧
    st.reconfigured = (st0.reconfigured || !ws.isEmpty)

end FilterPropertiesDialog

namespace FilterPropertiesDialog

/-! ## The catalog -/

/-- A loop that appends a block per element appends the blocks in order. -/
theorem foldl_append_blocks {α β : Type} (F : β → List α) (l : List β) (s : List α) :
    l.foldl (fun acc x => acc ++ F x) s = s ++ (l.map F).flatten := by
  induction l generalizing s with
  | nil => simp
  | cons x xs ih => simp [ih, List.append_assoc]

/-- The inner loop of `FindAllStreams` appends the streams of one producer. -/
theorem pushStreamsOf_eq (g : Graph) (chan : ChannelPtr) (s : List StreamDescriptor) :
    pushStreamsOf g chan s = s ++ streamsOf g chan := by
  unfold pushStreamsOf streamsOf
  have h := foldl_append_blocks (fun j => [StreamDescriptor.mk (some chan) j])
    (List.range (g.GetStreamCount chan)) s
  rw [h]
  congr 1
  induction (List.range (g.GetStreamCount chan)) with
  | nil => rfl
  | cons x xs ih => simp [ih]

/-- The loop over one scope appends the streams of its channels. -/
theorem pushScope_eq (g : Graph) (s : List StreamDescriptor) (scope : Oscilloscope) :
    pushScope g s scope = s ++ scopeStreams g scope := by
  unfold pushScope scopeStreams
  have h : (fun acc i => pushStreamsOf g (scope.GetChannel i) acc)
      = (fun (acc : List StreamDescriptor) i => acc ++ streamsOf g (scope.GetChannel i)) := by
    funext acc i
    exact pushStreamsOf_eq g _ acc
  rw [h]
  exact foldl_append_blocks (fun i => streamsOf g (scope.GetChannel i)) _ s

/-- The method `FindAllStreams` appends the catalog to its argument. -/
theorem FindAllStreams_eq (g : Graph) (s : List StreamDescriptor) :
    FindAllStreams g s = s ++ catalog g := by
  unfold FindAllStreams catalog
  have h1 : (pushScope g) = (fun (acc : List StreamDescriptor) sc => acc ++ scopeStreams g sc) := by
    funext acc sc
    exact pushScope_eq g acc sc
  have h2 : (fun acc f => pushStreamsOf g f acc)
      = (fun (acc : List StreamDescriptor) f => acc ++ streamsOf g f) := by
    funext acc f
    exact pushStreamsOf_eq g f acc
  simp only [h1, h2, foldl_append_blocks]
  simp [List.append_assoc]

/-- The number of streams of one producer. -/
theorem streamsOf_length (g : Graph) (chan : ChannelPtr) :
    (streamsOf g chan).length = g.GetStreamCount chan := by
  simp [streamsOf]

/-- The number of streams of one scope. -/
theorem scopeStreams_length (g : Graph) (scope : Oscilloscope) :
    (scopeStreams g scope).length = scopeStreamCount g scope := by
  simp [scopeStreams, scopeStreamCount, List.length_flatten, List.map_map, Function.comp_def,
    streamsOf_length]

/-- The length of the catalog. -/
theorem catalog_length (g : Graph) :
    (catalog g).length
      = 1 + (g.scopes.map (scopeStreamCount g)).sum + (g.filters.map g.GetStreamCount).sum := by
  simp only [catalog, List.length_cons, List.length_append, List.length_flatten, List.map_map,
    Function.comp_def, streamsOf_length, scopeStreams_length]
  ring

/-! ## The candidates of one input -/

/-- The loop over the catalog, started from any locals: the candidate list grows
by the accepted streams, in order. -/
theorem foldl_collect_matching {D U : Type} (env : Env D U) (f : Filter D U) (i : Nat)
    (S : List StreamDescriptor) (c : Candidates) :
    (S.foldl (collectStep env f i) c).matchingInputs
      = c.matchingInputs ++ S.filter (env.ValidateChannel i) := by
  induction S generalizing c with
  | nil => simp
  | cons x xs ih =>
    rw [List.foldl_cons, ih]
    by_cases hv : env.ValidateChannel i x = true
    · simp [collectStep, hv, List.filter_cons]
    · simp [collectStep, hv, List.filter_cons]

/-- The loop over the catalog, started from any locals: the label list grows by
the names of the accepted streams, in order. -/
theorem foldl_collect_names {D U : Type} (env : Env D U) (f : Filter D U) (i : Nat)
    (S : List StreamDescriptor) (c : Candidates) :
    (S.foldl (collectStep env f i) c).names
      = c.names ++ (S.filter (env.ValidateChannel i)).map env.GetName := by
  induction S generalizing c with
  | nil => simp
  | cons x xs ih =>
    rw [List.foldl_cons, ih]
    by_cases hv : env.ValidateChannel i x = true
    · simp [collectStep, hv, List.filter_cons]
    · simp [collectStep, hv, List.filter_cons]

/-- The candidate list is the catalog filtered by the validator. -/
theorem collectCandidates_matching {D U : Type} (env : Env D U) (f : Filter D U) (i : Nat)
    (S : List StreamDescriptor) :
    (collectCandidates env f i S).matchingInputs = S.filter (env.ValidateChannel i) := by
  simp [collectCandidates, foldl_collect_matching]

/-- The label list holds the names of the candidates. -/
theorem collectCandidates_names {D U : Type} (env : Env D U) (f : Filter D U) (i : Nat)
    (S : List StreamDescriptor) :
    (collectCandidates env f i S).names
      = (collectCandidates env f i S).matchingInputs.map env.GetName := by
  simp [collectCandidates, foldl_collect_matching, foldl_collect_names]

/-- The loop over the catalog, started from any locals: when no accepted stream
equals the binding, `sel` keeps its value. -/
theorem foldl_collect_sel_absent {D U : Type} (env : Env D U) (f : Filter D U) (i : Nat)
    (S : List StreamDescriptor) (c : Candidates)
    (h : f.GetInput i ∉ S.filter (env.ValidateChannel i)) :
    (S.foldl (collectStep env f i) c).sel = c.sel := by
  induction S generalizing c with
  | nil => simp
  | cons x xs ih =>
    rw [List.foldl_cons]
    by_cases hv : env.ValidateChannel i x = true
    · have hx : f.GetInput i ≠ x := by
        intro e
        apply h
        simp [List.filter_cons, hv, e]
      have hxs : f.GetInput i ∉ xs.filter (env.ValidateChannel i) := by
        intro m
        apply h
        simp [List.filter_cons, hv, m]
      rw [ih _ hxs]
      simp [collectStep, hv, hx]
    · have hxs : f.GetInput i ∉ xs.filter (env.ValidateChannel i) := by
        intro m
        apply h
        simpa [List.filter_cons, hv] using m
      rw [ih _ hxs]
      simp [collectStep, hv]

/-- The loop over the catalog, started from any locals: when an accepted stream
equals the binding, `sel` is the position of one such stream in the final
candidate list. -/
theorem foldl_collect_sel_present {D U : Type} (env : Env D U) (f : Filter D U) (i : Nat)
    (S : List StreamDescriptor) (c : Candidates)
    (h : f.GetInput i ∈ S.filter (env.ValidateChannel i)) :
    ∃ n : Nat, (S.foldl (collectStep env f i) c).sel = (n : Int) ∧
      (S.foldl (collectStep env f i) c).matchingInputs[n]? = some (f.GetInput i) := by
  induction S generalizing c with
  | nil => simp at h
  | cons x xs ih =>
    rw [List.foldl_cons]
    by_cases hin : f.GetInput i ∈ xs.filter (env.ValidateChannel i)
    · exact ih _ hin
    · have hv : env.ValidateChannel i x = true := by
        by_contra hv
        apply hin
        simpa [List.filter_cons, hv] using h
      have hx : f.GetInput i = x := by
        have h2 := h
        simp only [List.filter_cons, hv, if_true, List.mem_cons] at h2
        rcases h2 with e | m
        · exact e
        · exact absurd m hin
      refine ⟨c.matchingInputs.length, ?_, ?_⟩
      · rw [foldl_collect_sel_absent env f i xs _ hin]
        simp [collectStep, hv, hx]
      · rw [foldl_collect_matching]
        have hm : (collectStep env f i c x).matchingInputs = c.matchingInputs ++ [x] := by
          simp [collectStep, hv]
        rw [hm, List.append_assoc, List.getElem?_append_right (Nat.le_refl _)]
        simp [hx]

/-- Membership in the streams of one producer. -/
theorem mem_streamsOf (g : Graph) (chan : ChannelPtr) (sd : StreamDescriptor) :
    sd ∈ streamsOf g chan ↔ sd.m_channel = some chan ∧ sd.m_stream < g.GetStreamCount chan := by
  cases sd with
  | mk c j =>
    simp only [streamsOf, List.mem_map, List.mem_range, StreamDescriptor.mk.injEq]
    constructor
    · rintro ⟨a, ha, h1, h2⟩
      exact ⟨h1.symm, h2 ▸ ha⟩
    · rintro ⟨h1, h2⟩
      exact ⟨j, h2, h1.symm, rfl⟩

/-- The null stream is the first entry of the catalog. -/
theorem nullStream_mem_catalog (g : Graph) : nullStream ∈ catalog g := by
  simp [catalog]

/-- Every stream of every filter instance is in the catalog. -/
theorem filter_stream_mem_catalog (g : Graph) (n : ChannelPtr) (j : Nat)
    (hn : n ∈ g.filters) (hj : j < g.GetStreamCount n) :
    StreamDescriptor.mk (some n) j ∈ catalog g := by
  unfold catalog
  refine List.mem_cons_of_mem _ (List.mem_append_right _ ?_)
  rw [List.mem_flatten]
  exact ⟨streamsOf g n, List.mem_map_of_mem _ hn, (mem_streamsOf g n _).2 ⟨rfl, hj⟩⟩

end FilterPropertiesDialog

namespace FilterPropertiesDialog

/-! ## Loops -/

/-- A property kept by every step that succeeds is kept by a loop that succeeds. -/
theorem foldlM_keeps {σ α : Type} (f : σ → α → Option σ) (P : σ → Prop)
    (hstep : ∀ s a s', P s → f s a = some s' → P s') (l : List α) (s s' : σ)
    (hs : P s) (h : l.foldlM f s = some s') : P s' := by
  induction l generalizing s with
  | nil =>
    simp only [List.foldlM_nil] at h
    cases h
    exact hs
  | cons a as ih =>
    rw [List.foldlM_cons] at h
    cases hfa : f s a with
    | none => simp [hfa] at h
    | some s1 =>
      rw [hfa] at h
      exact ih s1 (hstep s a s1 hs hfa) h

/-- A loop whose every step succeeds from a state with the property, and keeps
the property, succeeds. -/
theorem foldlM_succeeds {σ α : Type} (f : σ → α → Option σ) (P : σ → Prop)
    (hstep : ∀ s a, P s → ∃ s', f s a = some s' ∧ P s') (l : List α) (s : σ)
    (hs : P s) : ∃ s', l.foldlM f s = some s' ∧ P s' := by
  induction l generalizing s with
  | nil => exact ⟨s, rfl, hs⟩
  | cons a as ih =>
    obtain ⟨s1, h1, hp1⟩ := hstep s a hs
    obtain ⟨s2, h2, hp2⟩ := ih s1 hp1
    refine ⟨s2, ?_, hp2⟩
    rw [List.foldlM_cons, h1]
    exact h2

/-- A property kept by every step is kept by the loop. -/
theorem foldl_keeps {σ α : Type} (f : σ → α → σ) (P : σ → Prop)
    (hstep : ∀ s a, P s → P (f s a)) (l : List α) (s : σ) (hs : P s) :
    P (l.foldl f s) := by
  induction l generalizing s with
  | nil => exact hs
  | cons a as ih => exact ih (f s a) (hstep s a hs)

/-- A property kept by the steps at the indices of the loop is kept by the loop. -/
theorem foldl_keeps_mem {σ α : Type} (f : σ → α → σ) (P : σ → Prop) (l : List α)
    (hstep : ∀ s a, a ∈ l → P s → P (f s a)) (s : σ) (hs : P s) :
    P (l.foldl f s) := by
  induction l generalizing s with
  | nil => exact hs
  | cons a as ih =>
    exact ih (fun s b hb hp => hstep s b (List.mem_cons_of_mem _ hb) hp) (f s a)
      (hstep s a (List.mem_cons_self _ _) hs)

/-! ## The states of one pass -/

/-- Every state is related to itself. -/
theorem Advances.refl {D U : Type} (st : Pass D U) : Advances st st :=
  ⟨rfl, rfl, rfl, rfl, rfl, [], by simp, by simp, by simp⟩

/-- The relation composes. -/
theorem Advances.trans {D U : Type} {a b c : Pass D U} (h1 : Advances a b)
    (h2 : Advances b c) : Advances a c := by
  obtain ⟨b1, b2, b3, b4, b5, ws1, t1, w1, r1⟩ := h1
  obtain ⟨c1, c2, c3, c4, c5, ws2, t2, w2, r2⟩ := h2
  refine ⟨c1.trans b1, c2.trans b2, c3.trans b3, c4.trans b4, c5.trans b5, ws1 ++ ws2, ?_, ?_, ?_⟩
  · rw [t2, t1, List.append_assoc]
  · intro e he
    rcases List.mem_append.1 he with h | h
    · exact w1 e h
    · exact w2 e h
  · rw [r2, r1]
    cases a.reconfigured <;> cases ws1 <;> cases ws2 <;> simp

/-- What a step over one input does when it succeeds: nothing, or one write of
a candidate to binding `i`. -/
theorem renderInput_cases {D U : Type} (env : Env D U) (S : List StreamDescriptor)
    (st st' : Pass D U) (i : Nat) (h : renderInput env S st i = some st') :
    st' = st ∨ ∃ s, s ∈ S.filter (env.ValidateChannel i) ∧
      st' = { dlg := { st.dlg with m_channel := st.dlg.m_channel.SetInput i s }
              reconfigured := true
              trace := st.trace ++ [Event.SetInput i s] } := by
  unfold renderInput at h
  simp only at h
  split at h
  · split at h
    · cases h
    · rename_i s hs
      right
      refine ⟨s, ?_, ?_⟩
      · rw [collectCandidates_matching] at hs
        unfold vectorAt at hs
        split at hs
        · exact List.getElem?_mem hs
        · cases hs
      · cases h
        rfl
  · left
    cases h
    rfl

/-- What a step over one parameter does: it keeps the base-class fields, and
either makes no call (only the pending text may change), or the widget of a
`TYPE_FLOAT` / `TYPE_INT` entry returned true and one write goes to entry `k`. -/
theorem renderParam_cases {D U : Type} (env : Env D U) (st : Pass D U) (k : Nat) :
    (renderParam env st k).dlg.base = st.dlg.base ∧
    (((renderParam env st k).dlg.m_channel = st.dlg.m_channel ∧
        (renderParam env st k).reconfigured = st.reconfigured ∧
        (renderParam env st k).trace = st.trace) ∨
      ∃ name param nval p' e,
        st.dlg.m_channel.m_parameters[k]? = some (name, param) ∧
        editValue env param.value = some nval ∧
        (env.UnitInputWithImplicitApply name
          (pendingText env st.dlg.m_paramTempValues name param.m_unit nval) nval
          param.m_unit).ret = true ∧
        (renderParam env st k).dlg.m_channel = st.dlg.m_channel.setParam k name p' ∧
        (renderParam env st k).reconfigured = true ∧
        (renderParam env st k).trace = st.trace ++ [e] ∧
        e.isWrite = true ∧ e.onParam k = true ∧
        (∀ j, j ≠ k → e.onParam j = false) ∧ (∀ i s, e ≠ Event.SetInput i s)) := by
  unfold renderParam
  cases hk : st.dlg.m_channel.m_parameters[k]? with
  | none => simp
  | some np =>
    obtain ⟨name, param⟩ := np
    cases hv : param.value with
    | float v =>
      simp only [hv]
      split
      · rename_i hret
        refine ⟨rfl, Or.inr ⟨name, param, v, _, _, rfl, ?_, hret, rfl, rfl, rfl, rfl, ?_, ?_, ?_⟩⟩
        · simp [editValue, hv]
        · simp [Event.onParam]
        · intro j hj
          simp [Event.onParam]
          omega
        · intro i s hh
          cases hh
      · exact ⟨rfl, Or.inl ⟨rfl, rfl, rfl⟩⟩
    | int v =>
      simp only [hv]
      split
      · rename_i hret
        refine ⟨rfl, Or.inr ⟨name, param, env.int64_to_double v, _, _, rfl, ?_, hret, rfl, rfl,
          rfl, rfl, ?_, ?_, ?_⟩⟩
        · simp [editValue, hv]
        · simp [Event.onParam]
        · intro j hj
          simp [Event.onParam]
          omega
        · intro i s hh
          cases hh
      · exact ⟨rfl, Or.inl ⟨rfl, rfl, rfl⟩⟩
    | bool v => simp [hv]
    | filename v => simp [hv]
    | enum v => simp [hv]
    | string v => simp [hv]
    | pattern8b10b v => simp [hv]

/-- A step over one input advances the pass. -/
theorem renderInput_advances {D U : Type} (env : Env D U) (S : List StreamDescriptor)
    (st st' : Pass D U) (i : Nat) (h : renderInput env S st i = some st') :
    Advances st st' := by
  rcases renderInput_cases env S st st' i h with e | ⟨s, _, e⟩
  · rw [e]
    exact Advances.refl st
  · rw [e]
    refine ⟨rfl, rfl, rfl, ?_, rfl, [Event.SetInput i s], rfl, ?_, ?_⟩
    · simp [Filter.SetInput]
    · intro e he
      simp only [List.mem_singleton] at he
      rw [he]
      rfl
    · simp

/-- A step over one parameter advances the pass. -/
theorem renderParam_advances {D U : Type} (env : Env D U) (st : Pass D U) (k : Nat) :
    Advances st (renderParam env st k) := by
  obtain ⟨hb, hc⟩ := renderParam_cases env st k
  rcases hc with ⟨hf, hr, ht⟩ | ⟨name, param, nval, p', e, _, _, _, hf, hr, ht, hw, _, _, _⟩
  · refine ⟨hb, ?_, ?_, ?_, ?_, [], ?_, ?_, ?_⟩
    · rw [hf]
    · rw [hf]
    · rw [hf]
    · rw [hf]
    · simp [ht]
    · simp
    · simp [hr]
  · refine ⟨hb, ?_, ?_, ?_, ?_, [e], ht, ?_, ?_⟩
    · rw [hf]; rfl
    · rw [hf]; rfl
    · rw [hf]; rfl
    · rw [hf]; simp [Filter.setParam]
    · intro x hx
      simp only [List.mem_singleton] at hx
      rw [hx]
      exact hw
    · simp [hr]

/-- The block of the inputs advances the pass. -/
theorem renderInputs_advances {D U : Type} (env : Env D U) (g : Graph) (st st' : Pass D U)
    (h : renderInputs env g st = some st') : Advances st st' := by
  unfold renderInputs at h
  split at h
  · split at h
    · exact foldlM_keeps (renderInput env (FindAllStreams g [])) (Advances st)
        (fun s a s' hs hstep => Advances.trans hs (renderInput_advances env _ s s' a hstep))
        _ st st' (Advances.refl st) h
    · cases h
      exact Advances.refl st
  · cases h
    exact Advances.refl st

/-- The block of the parameters advances the pass. -/
theorem renderParams_advances {D U : Type} (env : Env D U) (st : Pass D U) :
    Advances st (renderParams env st) := by
  unfold renderParams
  split
  · split
    · exact foldl_keeps (renderParam env) (Advances st)
        (fun s a hs => Advances.trans hs (renderParam_advances env s a)) _ st (Advances.refl st)
    · exact Advances.refl st
  · exact Advances.refl st

/-- The ways `DoRender` returns: false straight after the base-class render, or
true after the two blocks and the closing block. -/
theorem DoRender_cases {D U : Type} (env : Env D U) (g : Graph) (dlg : State D U)
    (b : Bool) (p : Pass D U) (h : DoRender env g dlg = some (b, p)) :
    (b = false ∧ p = (startPass env dlg).2) ∨
    (b = true ∧ ∃ st, renderInputs env g (startPass env dlg).2 = some st ∧
      p = finishPass env (renderParams env st)) := by
  unfold DoRender at h
  simp only at h
  split at h
  · left
    cases h
    exact ⟨rfl, rfl⟩
  · split at h
    · cases h
    · rename_i st hst
      right
      cases h
      exact ⟨rfl, st, hst, rfl⟩

/-- The pass starts with an empty trace and `reconfigured` false. -/
theorem startPass_fresh {D U : Type} (env : Env D U) (dlg : State D U) :
    (startPass env dlg).2.trace = [] ∧ (startPass env dlg).2.reconfigured = false :=
  ⟨rfl, rfl⟩

/-- The shape of a pass on return. With `ws` the writes made by the two blocks:
no write, and then no call at all and the names as the base-class render left
them; or some write and a default name, and then `SetDefaultName` and the
notification follow the writes and both name fields hold the new display name;
or some write and no default name, and then the notification alone follows and
the names are as the base-class render left them. -/
theorem DoRender_shape {D U : Type} (env : Env D U) (g : Graph) (dlg : State D U)
    (b : Bool) (p : Pass D U) (h : DoRender env g dlg = some (b, p)) :
    ∃ ws : List (Event D U), (∀ e ∈ ws, e.isWrite = true) ∧
      ((ws = [] ∧ p.trace = [] ∧ p.reconfigured = false ∧
          p.dlg.base = (startPass env dlg).2.dlg.base ∧
          p.dlg.m_channel.chan = (startPass env dlg).2.dlg.m_channel.chan) ∨
       (ws ≠ [] ∧ p.reconfigured = true ∧ p.dlg.m_channel.IsUsingDefaultName = true ∧
          p.trace = ws ++ [Event.SetDefaultName, Event.OnFilterReconfigured p.dlg.m_channel] ∧
          (∃ f0 : Filter D U, p.dlg.m_channel = SetDefaultName env f0 ∧
            f0.chan = (startPass env dlg).2.dlg.m_channel.chan) ∧
          p.dlg.base.m_committedDisplayName = p.dlg.m_channel.GetDisplayName ∧
          p.dlg.base.m_displayName = p.dlg.m_channel.GetDisplayName) ∨
       (ws ≠ [] ∧ p.reconfigured = true ∧ p.dlg.m_channel.IsUsingDefaultName = false ∧
          p.trace = ws ++ [Event.OnFilterReconfigured p.dlg.m_channel] ∧
          p.dlg.base = (startPass env dlg).2.dlg.base ∧
          p.dlg.m_channel.chan = (startPass env dlg).2.dlg.m_channel.chan)) := by
  rcases DoRender_cases env g dlg b p h with ⟨_, hp⟩ | ⟨_, st, hst, hp⟩
  · refine ⟨[], by simp, Or.inl ⟨rfl, ?_, ?_, ?_, ?_⟩⟩ <;> rw [hp] <;> rfl
  · have hadv : Advances (startPass env dlg).2 (renderParams env st) :=
      Advances.trans (renderInputs_advances env g _ st hst) (renderParams_advances env st)
    obtain ⟨hb, hc, _, _, _, ws, ht, hw, hr⟩ := hadv
    rw [(startPass_fresh env dlg).1] at ht
    rw [(startPass_fresh env dlg).2] at hr
    simp only [List.nil_append] at ht
    simp only [Bool.false_or] at hr
    refine ⟨ws, hw, ?_⟩
    cases hws : ws with
    | nil =>
      left
      rw [hws] at hr ht
      have hfin : finishPass env (renderParams env st) = renderParams env st := by
        unfold finishPass
        simp at hr
        simp [hr]
      rw [hp, hfin]
      simp at hr
      exact ⟨rfl, ht, hr, hb, hc⟩
    | cons w ws' =>
      right
      rw [hws] at hr
      simp at hr
      rw [← hws]
      have hne : ws ≠ [] := by rw [hws]; simp
      by_cases hd : (renderParams env st).dlg.m_channel.IsUsingDefaultName = true
      · left
        have hfin : p = { updateName env (renderParams env st) with
            trace := (updateName env (renderParams env st)).trace ++
              [Event.OnFilterReconfigured (updateName env (renderParams env st)).dlg.m_channel] } := by
          rw [hp]
          unfold finishPass
          simp [hr]
        have hup : updateName env (renderParams env st) =
            { renderParams env st with
              dlg := { (renderParams env st).dlg with
                        m_channel := SetDefaultName env (renderParams env st).dlg.m_channel
                        base := { (renderParams env st).dlg.base with
                          m_committedDisplayName :=
                            (SetDefaultName env (renderParams env st).dlg.m_channel).GetDisplayName
                          m_displayName :=
                            (SetDefaultName env (renderParams env st).dlg.m_channel).GetDisplayName } }
              trace := (renderParams env st).trace ++ [Event.SetDefaultName] } := by
          unfold updateName
          simp [hd]
        rw [hup] at hfin
        rw [hfin]
        refine ⟨hne, hr, ?_, ?_, ⟨_, rfl, hc⟩, rfl, rfl⟩
        · simpa [SetDefaultName, Filter.IsUsingDefaultName] using hd
        · simp [ht]
      · right
        have hd' : (renderParams env st).dlg.m_channel.IsUsingDefaultName = false := by
          simpa using hd
        have hup : updateName env (renderParams env st) = renderParams env st := by
          unfold updateName
          simp [hd']
        have hfin : p = { renderParams env st with
            trace := (renderParams env st).trace ++
              [Event.OnFilterReconfigured (renderParams env st).dlg.m_channel] } := by
          rw [hp]
          unfold finishPass
          simp [hr, hup]
        rw [hfin]
        exact ⟨hne, hr, hd', by simp [ht], hb, hc⟩

/-- The closing block keeps the bindings and the parameter store, and adds to
the trace only `SetDefaultName` and the notification. -/
theorem finishPass_frame {D U : Type} (env : Env D U) (st : Pass D U) :
    (finishPass env st).dlg.m_channel.m_inputs = st.dlg.m_channel.m_inputs ∧
    (finishPass env st).dlg.m_channel.m_parameters = st.dlg.m_channel.m_parameters ∧
    ∀ e ∈ (finishPass env st).trace,
      e ∈ st.trace ∨ e = Event.SetDefaultName ∨ e.isNotify = true := by
  unfold finishPass updateName
  by_cases hr : st.reconfigured = true
  · by_cases hd : st.dlg.m_channel.IsUsingDefaultName = true
    · simp only [hr, hd, if_true]
      refine ⟨rfl, rfl, ?_⟩
      intro e he
      simp only [List.mem_append, List.mem_singleton] at he
      rcases he with (h | h) | h
      · exact Or.inl h
      · exact Or.inr (Or.inl h)
      · right; right
        rw [h]
        rfl
    · simp only [hr, hd, if_true]
      refine ⟨rfl, rfl, ?_⟩
      intro e he
      simp only [List.mem_append, List.mem_singleton] at he
      rcases he with h | h
      · exact Or.inl h
      · right; right
        rw [h]
        rfl
  · simp only [hr]
    exact ⟨rfl, rfl, fun e he => Or.inl he⟩

/-- A step over one input keeps the parameter store. -/
theorem renderInput_parameters {D U : Type} (env : Env D U) (S : List StreamDescriptor)
    (st st' : Pass D U) (i : Nat) (h : renderInput env S st i = some st') :
    st'.dlg.m_channel.m_parameters = st.dlg.m_channel.m_parameters := by
  rcases renderInput_cases env S st st' i h with e | ⟨s, _, e⟩
  · rw [e]
  · rw [e]
    rfl

/-- A step over one parameter keeps the bindings. -/
theorem renderParam_inputs {D U : Type} (env : Env D U) (st : Pass D U) (k : Nat) :
    (renderParam env st k).dlg.m_channel.m_inputs = st.dlg.m_channel.m_inputs := by
  obtain ⟨_, hc⟩ := renderParam_cases env st k
  rcases hc with ⟨hf, _, _⟩ | ⟨name, param, nval, p', e, _, _, _, hf, _⟩
  · rw [hf]
  · rw [hf]; rfl

/-- The block of the inputs keeps the parameter store. -/
theorem renderInputs_parameters {D U : Type} (env : Env D U) (g : Graph) (st st' : Pass D U)
    (h : renderInputs env g st = some st') :
    st'.dlg.m_channel.m_parameters = st.dlg.m_channel.m_parameters := by
  unfold renderInputs at h
  split at h
  · split at h
    · exact foldlM_keeps (renderInput env (FindAllStreams g []))
        (fun s => s.dlg.m_channel.m_parameters = st.dlg.m_channel.m_parameters)
        (fun s a s' hs hstep => (renderInput_parameters env _ s s' a hstep).trans hs)
        _ st st' rfl h
    · cases h; rfl
  · cases h; rfl

/-- The block of the parameters keeps the bindings. -/
theorem renderParams_inputs {D U : Type} (env : Env D U) (st : Pass D U) :
    (renderParams env st).dlg.m_channel.m_inputs = st.dlg.m_channel.m_inputs := by
  unfold renderParams
  split
  · split
    · exact foldl_keeps (renderParam env)
        (fun s => s.dlg.m_channel.m_inputs = st.dlg.m_channel.m_inputs)
        (fun s a hs => (renderParam_inputs env s a).trans hs) _ st rfl
    · rfl
  · rfl

/-- The events of the trace that the block of the parameters adds are no calls
of `SetInput`. -/
theorem renderParams_setInput {D U : Type} (env : Env D U) (st : Pass D U) (i : Nat)
    (x : StreamDescriptor) (h : Event.SetInput i x ∈ (renderParams env st).trace) :
    Event.SetInput i x ∈ st.trace := by
  revert h
  unfold renderParams
  split
  · split
    · refine foldl_keeps (renderParam env)
        (fun s => Event.SetInput i x ∈ s.trace → Event.SetInput i x ∈ st.trace) ?_ _ st id
      intro s a hs hm
      apply hs
      obtain ⟨_, hc⟩ := renderParam_cases env s a
      rcases hc with ⟨_, _, ht⟩ | ⟨name, param, nval, p', e, _, _, _, _, _, ht, _, _, _, hne⟩
      · rwa [ht] at hm
      · rw [ht] at hm
        simp only [List.mem_append, List.mem_singleton] at hm
        rcases hm with hm | hm
        · exact hm
        · exact absurd hm.symm (hne i x)
    · exact id
  · exact id

/-- Reading a binding after a write: the written value at the written index. -/
theorem GetInput_SetInput {D U : Type} (f : Filter D U) (i j : Nat) (x : StreamDescriptor) :
    (f.SetInput i x).GetInput j
      = if j = i ∧ i < f.GetInputCount then x else f.GetInput j := by
  unfold Filter.SetInput Filter.GetInput Filter.GetInputCount
  simp only [List.getD_eq_getElem?_getD]
  by_cases hji : j = i
  · subst hji
    by_cases hlt : j < f.m_inputs.length
    · simp [hlt]
    · have h1 : f.m_inputs.length ≤ j := Nat.le_of_not_lt hlt
      have h2 : (f.m_inputs.set j x).length ≤ j := by simpa using h1
      simp [hlt, List.getElem?_eq_none h1, List.getElem?_eq_none h2]
  · have hne : i ≠ j := fun e => hji e.symm
    simp [hji, List.getElem?_set_ne hne]

/-- A step over one input keeps the bindings accepted by the validator. -/
theorem renderInput_valid {D U : Type} (env : Env D U) (S : List StreamDescriptor)
    (st st' : Pass D U) (i : Nat) (h : renderInput env S st i = some st')
    (hv : ∀ j, j < st.dlg.m_channel.GetInputCount →
      env.ValidateChannel j (st.dlg.m_channel.GetInput j) = true) :
    ∀ j, j < st.dlg.m_channel.GetInputCount →
      env.ValidateChannel j (st'.dlg.m_channel.GetInput j) = true := by
  intro j hj
  rcases renderInput_cases env S st st' i h with e | ⟨s, hs, e⟩
  · rw [e]
    exact hv j hj
  · rw [e]
    show env.ValidateChannel j ((st.dlg.m_channel.SetInput i s).GetInput j) = true
    rw [GetInput_SetInput]
    split
    · rename_i hji
      rw [hji.1]
      exact (List.mem_filter.1 hs).2
    · exact hv j hj

/-- A step over one input only writes candidates accepted by the validator. -/
theorem renderInput_writes {D U : Type} (env : Env D U) (S : List StreamDescriptor)
    (st st' : Pass D U) (i : Nat) (h : renderInput env S st i = some st')
    (hw : ∀ j x, Event.SetInput j x ∈ st.trace → x ∈ S.filter (env.ValidateChannel j)) :
    ∀ j x, Event.SetInput j x ∈ st'.trace → x ∈ S.filter (env.ValidateChannel j) := by
  intro j x hm
  rcases renderInput_cases env S st st' i h with e | ⟨s, hs, e⟩
  · rw [e] at hm
    exact hw j x hm
  · rw [e] at hm
    simp only [List.mem_append, List.mem_singleton] at hm
    rcases hm with hm | hm
    · exact hw j x hm
    · cases hm
      exact hs

/-- When every selection that `Combo` reports lies within the list it was
given, a step over one input succeeds. -/
theorem renderInput_succeeds {D U : Type} (env : Env D U) (S : List StreamDescriptor)
    (st : Pass D U) (i : Nat)
    (hrange : ∀ i label names sel, (env.Combo i label names sel).ret = true →
      0 ≤ (env.Combo i label names sel).selection ∧
      (env.Combo i label names sel).selection < (names.length : Int)) :
    ∃ st', renderInput env S st i = some st' := by
  unfold renderInput
  simp only
  split
  · rename_i hret
    obtain ⟨h0, hlt⟩ := hrange _ _ _ _ hret
    have hlen : (collectCandidates env st.dlg.m_channel i S).names.length
        = (collectCandidates env st.dlg.m_channel i S).matchingInputs.length := by
      rw [collectCandidates_names, List.length_map]
    have hidx : (env.Combo i (env.GetInputName i)
        (collectCandidates env st.dlg.m_channel i S).names
        (collectCandidates env st.dlg.m_channel i S).sel).selection.toNat
          < (collectCandidates env st.dlg.m_channel i S).matchingInputs.length := by
      rw [← hlen]
      omega
    have hsome : vectorAt (collectCandidates env st.dlg.m_channel i S).matchingInputs
        (env.Combo i (env.GetInputName i)
          (collectCandidates env st.dlg.m_channel i S).names
          (collectCandidates env st.dlg.m_channel i S).sel).selection
        = some ((collectCandidates env st.dlg.m_channel i S).matchingInputs.get ⟨_, hidx⟩) := by
      unfold vectorAt
      rw [if_pos h0, List.getElem?_eq_getElem hidx]
      rfl
    rw [hsome]
    exact ⟨_, rfl⟩
  · exact ⟨st, rfl⟩

/-- The block of the inputs keeps the bindings accepted by the validator. -/
theorem renderInputs_valid {D U : Type} (env : Env D U) (g : Graph) (st st' : Pass D U)
    (h : renderInputs env g st = some st')
    (hv : ∀ j, j < st.dlg.m_channel.GetInputCount →
      env.ValidateChannel j (st.dlg.m_channel.GetInput j) = true) :
    ∀ j, j < st.dlg.m_channel.GetInputCount →
      env.ValidateChannel j (st'.dlg.m_channel.GetInput j) = true := by
  unfold renderInputs at h
  split at h
  · split at h
    · have key := foldlM_keeps (renderInput env (FindAllStreams g []))
        (fun s => s.dlg.m_channel.GetInputCount = st.dlg.m_channel.GetInputCount ∧
          ∀ j, j < st.dlg.m_channel.GetInputCount →
            env.ValidateChannel j (s.dlg.m_channel.GetInput j) = true)
        (fun s a s' hs hstep => by
          obtain ⟨hc, hval⟩ := hs
          have hadv := renderInput_advances env _ s s' a hstep
          refine ⟨?_, ?_⟩
          · unfold Filter.GetInputCount at hc ⊢
            rw [hadv.2.2.2.1, hc]
          · intro j hj
            exact renderInput_valid env _ s s' a hstep
              (fun j hj => hval j (hc ▸ hj)) j (hc.symm ▸ hj))
        _ st st' ⟨rfl, hv⟩ h
      exact key.2
    · cases h
      exact hv
  · cases h
    exact hv

/-- The block of the inputs only writes candidates accepted by the validator. -/
theorem renderInputs_writes {D U : Type} (env : Env D U) (g : Graph) (st st' : Pass D U)
    (h : renderInputs env g st = some st')
    (hw : ∀ j x, Event.SetInput j x ∈ st.trace →
      x ∈ (FindAllStreams g []).filter (env.ValidateChannel j)) :
    ∀ j x, Event.SetInput j x ∈ st'.trace →
      x ∈ (FindAllStreams g []).filter (env.ValidateChannel j) := by
  unfold renderInputs at h
  split at h
  · split at h
    · exact foldlM_keeps (renderInput env (FindAllStreams g []))
        (fun s => ∀ j x, Event.SetInput j x ∈ s.trace →
          x ∈ (FindAllStreams g []).filter (env.ValidateChannel j))
        (fun s a s' hs hstep => renderInput_writes env _ s s' a hstep hs)
        _ st st' hw h
    · cases h
      exact hw
  · cases h
    exact hw

/-- When every selection that `Combo` reports lies within the list it was
given, the block of the inputs succeeds. -/
theorem renderInputs_succeeds {D U : Type} (env : Env D U) (g : Graph) (st : Pass D U)
    (hrange : ∀ i label names sel, (env.Combo i label names sel).ret = true →
      0 ≤ (env.Combo i label names sel).selection ∧
      (env.Combo i label names sel).selection < (names.length : Int)) :
    ∃ st', renderInputs env g st = some st' := by
  unfold renderInputs
  split
  · split
    · obtain ⟨s', hs', _⟩ := foldlM_succeeds (renderInput env (FindAllStreams g []))
        (fun _ => True)
        (fun s a _ => by
          obtain ⟨s', hs'⟩ := renderInput_succeeds env (FindAllStreams g []) s a hrange
          exact ⟨s', hs', trivial⟩)
        (List.range st.dlg.m_channel.GetInputCount) st trivial
      exact ⟨s', hs'⟩
    · exact ⟨st, rfl⟩
  · exact ⟨st, rfl⟩

/-- The events of the trace that the block of the inputs adds are no writes to
a parameter. -/
theorem renderInputs_onParam {D U : Type} (env : Env D U) (g : Graph) (st st' : Pass D U)
    (k : Nat) (h : renderInputs env g st = some st')
    (hk : ∀ e ∈ st.trace, e.onParam k = false) :
    ∀ e ∈ st'.trace, e.onParam k = false := by
  unfold renderInputs at h
  split at h
  · split at h
    · refine foldlM_keeps (renderInput env (FindAllStreams g []))
        (fun s => ∀ e ∈ s.trace, e.onParam k = false) ?_ _ st st' hk h
      intro s a s' hs hstep e he
      rcases renderInput_cases env _ s s' a hstep with e1 | ⟨x, _, e1⟩
      · rw [e1] at he
        exact hs e he
      · rw [e1] at he
        simp only [List.mem_append, List.mem_singleton] at he
        rcases he with he | he
        · exact hs e he
        · rw [he]
          rfl
    · cases h
      exact hk
  · cases h
    exact hk

end FilterPropertiesDialog

namespace FilterPropertiesDialog

/-! ## The claims about the catalog and the candidates -/

/-- Every entry of the catalog but the null stream is a stream of a producer,
with an index below its stream count. -/
theorem mem_catalog (g : Graph) (sd : StreamDescriptor) (h : sd ∈ catalog g) :
    sd = nullStream ∨
      ∃ c, sd.m_channel = some c ∧ sd.m_stream < g.GetStreamCount c := by
  unfold catalog at h
  rcases List.mem_cons.1 h with h | h
  · exact Or.inl h
  · right
    rcases List.mem_append.1 h with h | h
    · obtain ⟨l, hl, hsd⟩ := List.mem_flatten.1 h
      obtain ⟨sc, _, rfl⟩ := List.mem_map.1 hl
      unfold scopeStreams at hsd
      obtain ⟨l2, hl2, hsd2⟩ := List.mem_flatten.1 hsd
      obtain ⟨i, _, rfl⟩ := List.mem_map.1 hl2
      exact ⟨_, (mem_streamsOf g _ sd).1 hsd2⟩
    · obtain ⟨l, hl, hsd⟩ := List.mem_flatten.1 h
      obtain ⟨c, _, rfl⟩ := List.mem_map.1 hl
      exact ⟨_, (mem_streamsOf g _ sd).1 hsd⟩

/-- C1: for every catalog `S` (the one `FindAllStreams` returns included), every
filter and every input `i`, the candidate list `matchingInputs` that `DoRender`
builds is `S` filtered by `ValidateChannel(i, .)`, order kept, and `names` has
the same length and holds the names of the candidates, position by position.
On the catalog `[none, ChanA/0, ChanA/1, NodeX/0]` with a validator that rejects
`ChanA/1` alone the candidates are `[none, ChanA/0, NodeX/0]`. -/
theorem C1_candidates_are_filtered_catalog {D U : Type} (env : Env D U) (g : Graph)
    (f : Filter D U) (i : Nat) (S : List StreamDescriptor) :
    (collectCandidates env f i S).matchingInputs = S.filter (env.ValidateChannel i) ∧
    (collectCandidates env f i (FindAllStreams g [])).matchingInputs
      = (FindAllStreams g []).filter (env.ValidateChannel i) ∧
    (collectCandidates env f i S).names.length
      = (collectCandidates env f i S).matchingInputs.length ∧
    (collectCandidates env f i S).names
      = (collectCandidates env f i S).matchingInputs.map env.GetName ∧
    (collectCandidates (demoEnv rejectDigital comboIdle unitInputRejected)
        (demoDialog [nullStream] [] none).m_channel 0
        [⟨none, 0⟩, ⟨some 1, 0⟩, ⟨some 1, 1⟩, ⟨some 2, 0⟩]).matchingInputs
      = [⟨none, 0⟩, ⟨some 1, 0⟩, ⟨some 2, 0⟩] := by
  refine ⟨collectCandidates_matching env f i S, collectCandidates_matching env f i _, ?_,
    collectCandidates_names env f i S, by decide⟩
  rw [collectCandidates_names, List.length_map]

/-- C2: called on an empty vector, `FindAllStreams` yields the null stream,
then the streams of every channel of every scope (scopes in session order,
channel index increasing, stream index increasing), then the streams of every
filter (instances in order, stream index increasing), and nothing else; the
length is one plus the stream counts of the channels plus those of the filters. -/
theorem C2_FindAllStreams_order (g : Graph) :
    FindAllStreams g []
      = nullStream ::
        ((g.scopes.map (fun scope =>
            ((List.range scope.GetChannelCount).map (fun i =>
              (List.range (g.GetStreamCount (scope.GetChannel i))).map
                (fun j => StreamDescriptor.mk (some (scope.GetChannel i)) j))).flatten)).flatten
          ++ (g.filters.map (fun f =>
            (List.range (g.GetStreamCount f)).map
              (fun j => StreamDescriptor.mk (some f) j))).flatten) ∧
    (FindAllStreams g []).length
      = 1 + (g.scopes.map (fun scope =>
              ((List.range scope.GetChannelCount).map
                (fun i => g.GetStreamCount (scope.GetChannel i))).sum)).sum
          + (g.filters.map g.GetStreamCount).sum := by
  constructor
  · rw [FindAllStreams_eq]
    rfl
  · rw [FindAllStreams_eq, List.nil_append, catalog_length]
    rfl

/-- C3, the claim fails: with a validator that rejects the null pointer the
candidates of input 0 are the four real streams, the null stream is not one. -/
theorem C3_counterexample :
    (collectCandidates (demoEnv rejectNull comboIdle unitInputRejected)
        (demoDialog [nullStream] [] none).m_channel 0
        (FindAllStreams demoGraph [])).matchingInputs
      = [⟨some 1, 0⟩, ⟨some 1, 1⟩, ⟨some 2, 0⟩, ⟨some 3, 0⟩] ∧
    nullStream ∉ (collectCandidates (demoEnv rejectNull comboIdle unitInputRejected)
        (demoDialog [nullStream] [] none).m_channel 0
        (FindAllStreams demoGraph [])).matchingInputs := by
  constructor <;> decide

/-- C3, amended: the catalog always holds the null stream, and the candidate
list of input `i` holds it exactly when `ValidateChannel(i, .)` accepts it. -/
theorem C3_null_candidate_iff_accepted {D U : Type} (env : Env D U) (g : Graph)
    (f : Filter D U) (i : Nat) :
    nullStream ∈ FindAllStreams g [] ∧
    (nullStream ∈ (collectCandidates env f i (FindAllStreams g [])).matchingInputs
      ↔ env.ValidateChannel i nullStream = true) := by
  have hmem : nullStream ∈ FindAllStreams g [] := by
    rw [FindAllStreams_eq]
    simpa using nullStream_mem_catalog g
  refine ⟨hmem, ?_⟩
  rw [collectCandidates_matching, List.mem_filter]
  exact ⟨fun h => h.2, fun h => ⟨hmem, h⟩⟩

/-- C4, the claim fails: filter 3 is a filter instance with one stream, its
validator accepts every stream, and its own stream is a candidate of input 0. -/
theorem C4_counterexample :
    (demoDialog [nullStream] [] none).m_channel.self = 3 ∧ 3 ∈ demoGraph.filters ∧
    StreamDescriptor.mk (some 3) 0 ∈
      (collectCandidates (demoEnv acceptAll comboIdle unitInputRejected)
        (demoDialog [nullStream] [] none).m_channel 0
        (FindAllStreams demoGraph [])).matchingInputs := by
  refine ⟨rfl, ?_, ?_⟩ <;> decide

/-- C4, amended: `DoRender` has no test of its own for the filter's own
streams. For a filter that is one of the instances, no candidate of input `i`
has the filter as its producer exactly when `ValidateChannel(i, .)` rejects
every stream of the filter. -/
theorem C4_no_self_candidate_iff_rejected {D U : Type} (env : Env D U) (g : Graph)
    (f : Filter D U) (i : Nat) (hself : f.self ∈ g.filters) :
    (∀ sd ∈ (collectCandidates env f i (FindAllStreams g [])).matchingInputs,
        sd.m_channel ≠ some f.self)
      ↔ (∀ j, j < g.GetStreamCount f.self →
          env.ValidateChannel i (StreamDescriptor.mk (some f.self) j) = false) := by
  rw [collectCandidates_matching, FindAllStreams_eq, List.nil_append]
  constructor
  · intro h j hj
    by_contra hv
    have hv' : env.ValidateChannel i (StreamDescriptor.mk (some f.self) j) = true := by
      simpa using hv
    exact h _ (List.mem_filter.2 ⟨filter_stream_mem_catalog g f.self j hself hj, hv'⟩) rfl
  · intro h sd hsd hc
    obtain ⟨hcat, hv⟩ := List.mem_filter.1 hsd
    rcases mem_catalog g sd hcat with hn | ⟨c, hc1, hc2⟩
    · rw [hn] at hc
      cases hc
    · rw [hc] at hc1
      cases hc1
      have hsd' : sd = StreamDescriptor.mk (some f.self) sd.m_stream := by
        cases sd
        simp only [StreamDescriptor.mk.injEq, and_true]
        exact hc
      rw [hsd'] at hv
      rw [h _ hc2] at hv
      cases hv

/-- C4, amended, at a filter whose validator rejects the filter's own streams. -/
theorem C4_no_self_candidate_witness :
    (demoDialog [nullStream] [] none).m_channel.self ∈ demoGraph.filters ∧
    ((∀ sd ∈ (collectCandidates
          (demoEnv (fun _ s => decide (s.m_channel ≠ some 3)) comboIdle unitInputRejected)
          (demoDialog [nullStream] [] none).m_channel 0
          (FindAllStreams demoGraph [])).matchingInputs,
        sd.m_channel ≠ some (demoDialog [nullStream] [] none).m_channel.self)
      ↔ (∀ j, j < demoGraph.GetStreamCount (demoDialog [nullStream] [] none).m_channel.self →
          (demoEnv (fun _ s => decide (s.m_channel ≠ some 3)) comboIdle
            unitInputRejected).ValidateChannel 0
            (StreamDescriptor.mk (some (demoDialog [nullStream] [] none).m_channel.self) j)
              = false)) :=
  ⟨by decide, C4_no_self_candidate_iff_rejected _ demoGraph _ 0 (by decide)⟩

/-- C9: when the binding `b` of input `i` is accepted by the validator and occurs
in the catalog, `matchingInputs[sel]` is `b`; writing `matchingInputs[sel]` back
with `SetInput(i, .)` leaves the filter, binding `i` and every other binding
included, as it was; the step of `DoRender` over input `i`, when `Combo` returns
true with `sel` unchanged, returns with the one call `SetInput(i, b)` and the
filter as it was; and when `b` is no candidate, `sel` stays -1. -/
theorem C9_sel_marks_current_binding {D U : Type} (env : Env D U) (f : Filter D U)
    (i : Nat) (S : List StreamDescriptor)
    (hv : env.ValidateChannel i (f.GetInput i) = true) (hS : f.GetInput i ∈ S) :
    (∃ n : Nat, (collectCandidates env f i S).sel = (n : Int) ∧
      (collectCandidates env f i S).matchingInputs[n]? = some (f.GetInput i)) ∧
    vectorAt (collectCandidates env f i S).matchingInputs (collectCandidates env f i S).sel
      = some (f.GetInput i) ∧
    f.SetInput i (f.GetInput i) = f ∧
    (∀ j, (f.SetInput i (f.GetInput i)).GetInput j = f.GetInput j) ∧
    (∀ (f' : Filter D U) (S' : List StreamDescriptor),
      f'.GetInput i ∉ (collectCandidates env f' i S').matchingInputs →
      (collectCandidates env f' i S').sel = -1) ∧
    (∀ st : Pass D U, st.dlg.m_channel = f →
      (env.Combo i (env.GetInputName i) (collectCandidates env f i S).names
        (collectCandidates env f i S).sel).ret = true →
      (env.Combo i (env.GetInputName i) (collectCandidates env f i S).names
        (collectCandidates env f i S).sel).selection = (collectCandidates env f i S).sel →
      ∃ st' : Pass D U, renderInput env S st i = some st' ∧
        st'.dlg.m_channel = f ∧
        (∀ j, st'.dlg.m_channel.GetInput j = f.GetInput j) ∧
        st'.trace = st.trace ++ [Event.SetInput i (f.GetInput i)]) := by
  have hmem : f.GetInput i ∈ S.filter (env.ValidateChannel i) := List.mem_filter.2 ⟨hS, hv⟩
  obtain ⟨n, hn1, hn2⟩ := foldl_collect_sel_present env f i S ⟨[], [], -1⟩ hmem
  have hset : f.SetInput i (f.GetInput i) = f := by
    cases f with
    | mk self chan inputs params =>
      simp only [Filter.SetInput, Filter.GetInput, Filter.mk.injEq, true_and, and_true]
      apply List.ext_getElem?
      intro m
      by_cases hm : i = m
      · subst hm
        by_cases hlt : i < inputs.length
        · simp [hlt, List.getD_eq_getElem?_getD]
        · have h1 : inputs.length ≤ i := Nat.le_of_not_lt hlt
          have h2 : (inputs.set i (inputs.getD i nullStream)).length ≤ i := by simpa using h1
          rw [List.getElem?_eq_none h1, List.getElem?_eq_none h2]
      · rw [List.getElem?_set_ne hm]
  have hvec : vectorAt (collectCandidates env f i S).matchingInputs
      (collectCandidates env f i S).sel = some (f.GetInput i) := by
    unfold vectorAt
    unfold collectCandidates
    rw [hn1]
    simp only [Int.toNat_ofNat, Int.ofNat_zero_le, if_true]
    exact hn2
  refine ⟨⟨n, hn1, hn2⟩, hvec, hset, ?_, ?_, ?_⟩
  · intro j
    rw [hset]
  · intro f' S' hnot
    rw [collectCandidates_matching] at hnot
    exact foldl_collect_sel_absent env f' i S' ⟨[], [], -1⟩ hnot
  · intro st hst hret hsel
    subst hst
    have hstep : renderInput env S st i
        = some { dlg := { st.dlg with
                          m_channel := st.dlg.m_channel.SetInput i (st.dlg.m_channel.GetInput i) }
                 reconfigured := true
                 trace := st.trace ++ [Event.SetInput i (st.dlg.m_channel.GetInput i)] } := by
      unfold renderInput
      simp only [hret, if_true, hsel, hvec]
    refine ⟨_, hstep, hset, ?_, rfl⟩
    intro j
    show (st.dlg.m_channel.SetInput i (st.dlg.m_channel.GetInput i)).GetInput j = _
    rw [hset]

/-- C9 at filter 3 with input 0 bound to the first stream of channel 1 and a user
who clicks the selected entry of the combo box: `sel` is 1, `matchingInputs[1]`
is the binding, the step over input 0 calls `SetInput(0, .)` with it and leaves
the filter as it was, and so does the whole pass. -/
theorem C9_sel_marks_current_binding_witness :
    (collectCandidates (demoEnv rejectDigital comboSame unitInputRejected)
        (demoDialog [⟨some 1, 0⟩] [] none).m_channel 0 (FindAllStreams demoGraph [])).sel = 1 ∧
    vectorAt
      (collectCandidates (demoEnv rejectDigital comboSame unitInputRejected)
        (demoDialog [⟨some 1, 0⟩] [] none).m_channel 0
        (FindAllStreams demoGraph [])).matchingInputs
      (collectCandidates (demoEnv rejectDigital comboSame unitInputRejected)
        (demoDialog [⟨some 1, 0⟩] [] none).m_channel 0 (FindAllStreams demoGraph [])).sel
      = some ((demoDialog [⟨some 1, 0⟩] [] none).m_channel.GetInput 0) ∧
    (∃ st' : Pass Rat Unit,
      renderInput (demoEnv rejectDigital comboSame unitInputRejected)
        (FindAllStreams demoGraph [])
        { dlg := demoDialog [⟨some 1, 0⟩] [] none, reconfigured := false, trace := [] } 0
          = some st' ∧
      st'.dlg.m_channel = (demoDialog [⟨some 1, 0⟩] [] none).m_channel ∧
      (∀ j, st'.dlg.m_channel.GetInput j
        = (demoDialog [⟨some 1, 0⟩] [] none).m_channel.GetInput j) ∧
      st'.trace = [] ++ [Event.SetInput 0
        ((demoDialog [⟨some 1, 0⟩] [] none).m_channel.GetInput 0)]) ∧
    (∃ p : Pass Rat Unit,
      DoRender (demoEnv rejectDigital comboSame unitInputRejected) demoGraph
        (demoDialog [⟨some 1, 0⟩] [] none) = some (true, p) ∧
      p.dlg.m_channel.m_inputs = [⟨some 1, 0⟩] ∧
      p.trace = [Event.SetInput 0 ⟨some 1, 0⟩, Event.SetDefaultName,
        Event.OnFilterReconfigured p.dlg.m_channel]) :=
  ⟨by decide,
   (C9_sel_marks_current_binding (demoEnv rejectDigital comboSame unitInputRejected)
      (demoDialog [⟨some 1, 0⟩] [] none).m_channel 0 (FindAllStreams demoGraph [])
      (by decide) (by decide)).2.1,
   (C9_sel_marks_current_binding (demoEnv rejectDigital comboSame unitInputRejected)
      (demoDialog [⟨some 1, 0⟩] [] none).m_channel 0 (FindAllStreams demoGraph [])
      (by decide) (by decide)).2.2.2.2.2
      { dlg := demoDialog [⟨some 1, 0⟩] [] none, reconfigured := false, trace := [] }
      rfl rfl rfl,
   ⟨_, rfl, rfl, rfl⟩⟩

end FilterPropertiesDialog

namespace FilterPropertiesDialog

/-! ## The claims about one pass -/

/-- A write is no notification. -/
theorem isNotify_of_isWrite {D U : Type} (e : Event D U) (h : e.isWrite = true) :
    e.isNotify = false := by
  cases e <;> simp_all [Event.isWrite, Event.isNotify]

/-- C5: in a pass of `DoRender` in which at least one binding or parameter
commit went through, whatever their number, `OnFilterReconfigured` is called
exactly once, as the last call of the pass, after all the writes `SetInput` /
`SetFloatVal` / `SetIntVal` of the pass. -/
theorem C5_one_notification_after_all_writes {D U : Type} (env : Env D U) (g : Graph)
    (dlg : State D U) (b : Bool) (p : Pass D U) (h : DoRender env g dlg = some (b, p))
    (hk : 1 ≤ p.trace.countP Event.isWrite) :
    p.trace.countP Event.isNotify = 1 ∧
    ∃ pre : List (Event D U),
      p.trace = pre ++ [Event.OnFilterReconfigured p.dlg.m_channel] ∧
      pre.countP Event.isNotify = 0 ∧
      pre.countP Event.isWrite = p.trace.countP Event.isWrite := by
  obtain ⟨ws, hw, hshape⟩ := DoRender_shape env g dlg b p h
  have hws : ws.countP Event.isNotify = 0 := by
    rw [List.countP_eq_zero]
    intro e he
    simp [isNotify_of_isWrite e (hw e he)]
  rcases hshape with ⟨_, ht, _⟩ | ⟨_, _, _, ht, _⟩ | ⟨_, _, _, ht, _⟩
  · rw [ht] at hk
    simp at hk
  · refine ⟨?_, ws ++ [Event.SetDefaultName], ?_, ?_, ?_⟩
    · rw [ht, List.countP_append, hws]
      simp [List.countP_cons, Event.isNotify]
    · rw [ht]
      simp
    · rw [List.countP_append, hws]
      simp [List.countP_cons, Event.isNotify]
    · rw [ht]
      simp [List.countP_append, List.countP_cons, Event.isWrite]
  · refine ⟨?_, ws, ht, hws, ?_⟩
    · rw [ht, List.countP_append, hws]
      simp [List.countP_cons, Event.isNotify]
    · rw [ht]
      simp [List.countP_append, List.countP_cons, Event.isWrite]

/-- C5 at a pass in which the user picks a stream for both inputs and types a
new value for the parameter: three writes, one notification, the last call. -/
theorem C5_one_notification_witness :
    ∃ p : Pass Rat Unit,
      DoRender (demoEnv rejectDigital comboSecond unitInputTyped) demoGraph
        (demoDialog [nullStream, nullStream] [gainParam] none) = some (true, p) ∧
      p.trace.countP Event.isWrite = 3 ∧
      p.trace.countP Event.isNotify = 1 ∧
      ∃ pre : List (Event Rat Unit),
        p.trace = pre ++ [Event.OnFilterReconfigured p.dlg.m_channel] ∧
        pre.countP Event.isNotify = 0 ∧
        pre.countP Event.isWrite = p.trace.countP Event.isWrite :=
  ⟨_, rfl, by decide,
    C5_one_notification_after_all_writes
      (demoEnv rejectDigital comboSecond unitInputTyped) demoGraph
      (demoDialog [nullStream, nullStream] [gainParam] none) true _ rfl (by decide)⟩

/-- A step over one input keeps the pending texts. -/
theorem renderInput_temps {D U : Type} (env : Env D U) (S : List StreamDescriptor)
    (st st' : Pass D U) (i : Nat) (h : renderInput env S st i = some st') :
    st'.dlg.m_paramTempValues = st.dlg.m_paramTempValues := by
  rcases renderInput_cases env S st st' i h with e | ⟨s, _, e⟩
  · rw [e]
  · rw [e]

/-- The block of the inputs keeps the pending texts. -/
theorem renderInputs_temps {D U : Type} (env : Env D U) (g : Graph) (st st' : Pass D U)
    (h : renderInputs env g st = some st') :
    st'.dlg.m_paramTempValues = st.dlg.m_paramTempValues := by
  unfold renderInputs at h
  split at h
  · split at h
    · exact foldlM_keeps (renderInput env (FindAllStreams g []))
        (fun s => s.dlg.m_paramTempValues = st.dlg.m_paramTempValues)
        (fun s a s' hs hstep => (renderInput_temps env _ s s' a hstep).trans hs)
        _ st st' rfl h
    · cases h; rfl
  · cases h; rfl

/-- A step over one parameter keeps the keys of the store. -/
theorem renderParam_names {D U : Type} (env : Env D U) (st : Pass D U) (j : Nat) :
    (renderParam env st j).dlg.m_channel.m_parameters.map Prod.fst
      = st.dlg.m_channel.m_parameters.map Prod.fst := by
  obtain ⟨_, hc⟩ := renderParam_cases env st j
  rcases hc with ⟨hf, _, _⟩ | ⟨name, param, nval, p', e, hj, _, _, hf, _⟩
  · rw [hf]
  · rw [hf]
    show (st.dlg.m_channel.m_parameters.set j (name, p')).map Prod.fst = _
    apply List.ext_getElem?
    intro m
    rw [List.getElem?_map, List.getElem?_map]
    by_cases hm : j = m
    · subst hm
      rw [hj]
      have hlt : j < st.dlg.m_channel.m_parameters.length := by
        by_contra hge
        rw [List.getElem?_eq_none (Nat.le_of_not_lt hge)] at hj
        cases hj
      rw [List.getElem?_set_self hlt]
      rfl
    · rw [List.getElem?_set_ne hm]

/-- A step over one parameter keeps the pending text of every other key. -/
theorem renderParam_temps_other {D U : Type} (env : Env D U) (st : Pass D U) (j : Nat)
    (key : String)
    (h : ∀ name param, st.dlg.m_channel.m_parameters[j]? = some (name, param) → name ≠ key) :
    (renderParam env st j).dlg.m_paramTempValues key = st.dlg.m_paramTempValues key := by
  unfold renderParam
  cases hj : st.dlg.m_channel.m_parameters[j]? with
  | none => rfl
  | some np =>
    obtain ⟨name, param⟩ := np
    have hne : key ≠ name := fun e => h name param hj e.symm
    have hseed : ∀ v : D, setTemp (seedTemp env st.dlg.m_paramTempValues name param.m_unit v)
        name (env.UnitInputWithImplicitApply name
          ((seedTemp env st.dlg.m_paramTempValues name param.m_unit v name).getD "") v
          param.m_unit).currentValue key = st.dlg.m_paramTempValues key := by
      intro v
      by_cases hnone : (st.dlg.m_paramTempValues name).isNone = true
      · simp [setTemp, seedTemp, hne, hnone]
      · simp [setTemp, seedTemp, hne, hnone]
    cases hv : param.value with
    | float v =>
      simp only [hv]
      split
      · exact hseed v
      · exact hseed v
    | int v =>
      simp only [hv]
      split
      · exact hseed (env.int64_to_double v)
      · exact hseed (env.int64_to_double v)
    | bool v => simp [hv]
    | filename v => simp [hv]
    | enum v => simp [hv]
    | string v => simp [hv]
    | pattern8b10b v => simp [hv]

/-- A step over a parameter other than entry `k` keeps entry `k` and makes no
write to it. -/
theorem renderParam_other {D U : Type} (env : Env D U) (st : Pass D U) (j k : Nat)
    (np : String × FilterParameter D U) (hjk : j ≠ k)
    (hk : st.dlg.m_channel.m_parameters[k]? = some np)
    (ht : ∀ e ∈ st.trace, e.onParam k = false) :
    (renderParam env st j).dlg.m_channel.m_parameters[k]? = some np ∧
    (∀ e ∈ (renderParam env st j).trace, e.onParam k = false) := by
  obtain ⟨_, hc⟩ := renderParam_cases env st j
  rcases hc with ⟨hf, _, htr⟩ | ⟨name', param', nval', p', e, _, _, _, hf, _, htr, _, _, hoth, _⟩
  · refine ⟨?_, ?_⟩
    · rw [hf]
      exact hk
    · rw [htr]
      exact ht
  · refine ⟨?_, ?_⟩
    · rw [hf]
      show (st.dlg.m_channel.m_parameters.set j (name', p'))[k]? = some np
      rw [List.getElem?_set_ne hjk]
      exact hk
    · rw [htr]
      intro x hx
      simp only [List.mem_append, List.mem_singleton] at hx
      rcases hx with hx | hx
      · exact ht x hx
      · rw [hx]
        exact hoth k (fun e => hjk e.symm)

/-- A step over a parameter whose widget, called with the pending text, returns
false makes no call and keeps the filter and `reconfigured`. -/
theorem renderParam_not_committed {D U : Type} (env : Env D U) (st : Pass D U) (k : Nat)
    (name : String) (param : FilterParameter D U) (nval : D)
    (hv : editValue env param.value = some nval)
    (hrej : (env.UnitInputWithImplicitApply name
      (pendingText env st.dlg.m_paramTempValues name param.m_unit nval) nval
      param.m_unit).ret = false)
    (hk : st.dlg.m_channel.m_parameters[k]? = some (name, param)) :
    (renderParam env st k).dlg.m_channel = st.dlg.m_channel ∧
    (renderParam env st k).reconfigured = st.reconfigured ∧
    (renderParam env st k).trace = st.trace := by
  obtain ⟨_, hc⟩ := renderParam_cases env st k
  rcases hc with h | ⟨name', param', nval', p', e, hj, hv', hret, _⟩
  · exact h
  · exfalso
    rw [hk] at hj
    cases hj
    rw [hv] at hv'
    cases hv'
    rw [hrej] at hret
    cases hret

/-- The pending text depends on the pending texts through the one key. -/
theorem pendingText_congr {D U : Type} (env : Env D U) (m m' : String → Option String)
    (name : String) (unit : U) (nval : D) (h : m name = m' name) :
    pendingText env m name unit nval = pendingText env m' name unit nval := by
  unfold pendingText seedTemp
  rw [h]
  split
  · simp [setTemp]
  · rw [h]

/-- The block of the parameters, when the keys before entry `k` differ from its
key and the widget of entry `k`, called with the pending text, returns false,
keeps entry `k` and makes no write to it. -/
theorem renderParams_rejected {D U : Type} (env : Env D U) (st : Pass D U) (k : Nat)
    (name : String) (param : FilterParameter D U) (nval : D)
    (hv : editValue env param.value = some nval)
    (huniq : ∀ j, j < k → (st.dlg.m_channel.m_parameters.map Prod.fst)[j]? ≠ some name)
    (hrej : (env.UnitInputWithImplicitApply name
      (pendingText env st.dlg.m_paramTempValues name param.m_unit nval) nval
      param.m_unit).ret = false)
    (hk : st.dlg.m_channel.m_parameters[k]? = some (name, param))
    (ht : ∀ e ∈ st.trace, e.onParam k = false) :
    (renderParams env st).dlg.m_channel.m_parameters[k]? = some (name, param) ∧
    (∀ e ∈ (renderParams env st).trace, e.onParam k = false) := by
  unfold renderParams
  split
  · split
    · have hlt : k < st.dlg.m_channel.GetParamCount := by
        by_contra hge
        rw [List.getElem?_eq_none (Nat.le_of_not_lt hge)] at hk
        cases hk
      obtain ⟨m, hm⟩ : ∃ m, st.dlg.m_channel.GetParamCount = (k + 1) + m :=
        ⟨st.dlg.m_channel.GetParamCount - (k + 1), by omega⟩
      rw [hm, List.range_add, List.range_succ, List.foldl_append, List.foldl_append]
      have h1 := foldl_keeps_mem (renderParam env)
        (fun s => s.dlg.m_channel.m_parameters.map Prod.fst
            = st.dlg.m_channel.m_parameters.map Prod.fst ∧
          s.dlg.m_channel.m_parameters[k]? = some (name, param) ∧
          s.dlg.m_paramTempValues name = st.dlg.m_paramTempValues name ∧
          ∀ e ∈ s.trace, e.onParam k = false)
        (List.range k)
        (fun s j hj hs => by
          obtain ⟨hn, hp, htm, hev⟩ := hs
          have hjk : j < k := List.mem_range.1 hj
          have hoth := renderParam_other env s j k (name, param) (Nat.ne_of_lt hjk) hp hev
          refine ⟨(renderParam_names env s j).trans hn, hoth.1, ?_, hoth.2⟩
          rw [renderParam_temps_other env s j name]
          · exact htm
          · intro name' param' hj' e
            apply huniq j hjk
            rw [← hn, List.getElem?_map, hj', e]
            rfl)
        st ⟨rfl, hk, rfl, ht⟩
      obtain ⟨_, hp1, htm1, hev1⟩ := h1
      have hrej1 : (env.UnitInputWithImplicitApply name
          (pendingText env (List.foldl (renderParam env) st (List.range k)).dlg.m_paramTempValues
            name param.m_unit nval) nval param.m_unit).ret = false := by
        rw [pendingText_congr env _ st.dlg.m_paramTempValues name param.m_unit nval htm1]
        exact hrej
      have h2 := renderParam_not_committed env _ k name param nval hv hrej1 hp1
      simp only [List.foldl_cons, List.foldl_nil]
      refine foldl_keeps_mem (renderParam env)
        (fun s => s.dlg.m_channel.m_parameters[k]? = some (name, param) ∧
          ∀ e ∈ s.trace, e.onParam k = false)
        _ (fun s j hj hs => by
          obtain ⟨i, _, hi⟩ := List.mem_map.1 hj
          have hjk : j ≠ k := by omega
          exact renderParam_other env s j k (name, param) hjk hs.1 hs.2) _ ⟨?_, ?_⟩
      · rw [h2.1]
        exact hp1
      · rw [h2.2.2]
        exact hev1
    · exact ⟨hk, ht⟩
  · exact ⟨hk, ht⟩

/-- C6: for a `TYPE_FLOAT` or `TYPE_INT` parameter (entry `k` of the store, its
key unlike the keys before it, as in a `std::map`) whose unit input, called with
the pending text, reports "not committed", a pass of `DoRender` calls neither
`SetFloatVal` nor `SetIntVal` on it, the stored entry after the pass is the
stored entry before the pass, and the parameter alone does not set
`reconfigured`: the pass ends with the flag set only if the trace holds a write
that is not to this parameter. -/
theorem C6_rejected_edit_keeps_stored_value {D U : Type} (env : Env D U) (g : Graph)
    (dlg : State D U) (k : Nat) (name : String) (param : FilterParameter D U) (nval : D)
    (b : Bool) (p : Pass D U)
    (hk : dlg.m_channel.m_parameters[k]? = some (name, param))
    (hv : editValue env param.value = some nval)
    (huniq : ∀ j, j < k → (dlg.m_channel.m_parameters.map Prod.fst)[j]? ≠ some name)
    (hrej : (env.UnitInputWithImplicitApply name
      (pendingText env dlg.m_paramTempValues name param.m_unit nval) nval
      param.m_unit).ret = false)
    (h : DoRender env g dlg = some (b, p)) :
    p.dlg.m_channel.m_parameters[k]? = some (name, param) ∧
    (∀ e ∈ p.trace, e.onParam k = false) ∧
    (p.reconfigured = true → ∃ e ∈ p.trace, e.isWrite = true ∧ e.onParam k = false) := by
  have hstart : (startPass env dlg).2.dlg.m_channel.m_parameters[k]? = some (name, param) := hk
  have hmain : p.dlg.m_channel.m_parameters[k]? = some (name, param) ∧
      (∀ e ∈ p.trace, e.onParam k = false) := by
    rcases DoRender_cases env g dlg b p h with ⟨_, hp⟩ | ⟨_, st, hst, hp⟩
    · rw [hp]
      refine ⟨hstart, ?_⟩
      intro e he
      rw [(startPass_fresh env dlg).1] at he
      cases he
    · have hpar : st.dlg.m_channel.m_parameters = dlg.m_channel.m_parameters :=
        renderInputs_parameters env g _ st hst
      have htmp : st.dlg.m_paramTempValues = dlg.m_paramTempValues :=
        renderInputs_temps env g _ st hst
      have h1 : st.dlg.m_channel.m_parameters[k]? = some (name, param) := by
        rw [hpar]
        exact hk
      have h2 : ∀ e ∈ st.trace, e.onParam k = false := by
        apply renderInputs_onParam env g _ st k hst
        intro e he
        rw [(startPass_fresh env dlg).1] at he
        cases he
      obtain ⟨h3, h4⟩ := renderParams_rejected env st k name param nval hv
        (by rw [hpar]; exact huniq) (by rw [htmp]; exact hrej) h1 h2
      obtain ⟨_, h5, h6⟩ := finishPass_frame env (renderParams env st)
      rw [hp]
      refine ⟨?_, ?_⟩
      · rw [h5]
        exact h3
      · intro e he
        rcases h6 e he with h7 | h7 | h7
        · exact h4 e h7
        · rw [h7]
          rfl
        · cases e <;> simp_all [Event.isNotify, Event.onParam]
  refine ⟨hmain.1, hmain.2, ?_⟩
  intro hr
  obtain ⟨ws, hw, hshape⟩ := DoRender_shape env g dlg b p h
  rcases hshape with ⟨_, _, hr0, _⟩ | ⟨hne, _, _, ht, _⟩ | ⟨hne, _, _, ht, _⟩
  · rw [hr0] at hr
    cases hr
  · obtain ⟨w, hwm⟩ := List.exists_mem_of_ne_nil ws hne
    have hin : w ∈ p.trace := by
      rw [ht]
      exact List.mem_append_left _ hwm
    exact ⟨w, hin, hw w hwm, hmain.2 w hin⟩
  · obtain ⟨w, hwm⟩ := List.exists_mem_of_ne_nil ws hne
    have hin : w ∈ p.trace := by
      rw [ht]
      exact List.mem_append_left _ hwm
    exact ⟨w, hin, hw w hwm, hmain.2 w hin⟩

/-- C6 at the stored value 3.3 with the pending text `not_a_number`: the pass
makes no call, the stored value is still 3.3 and the text is still shown. -/
theorem C6_rejected_edit_witness :
    pendingText (demoEnv rejectDigital comboIdle unitInputRejected)
      (demoDialog [] [gainParam] (some "not_a_number")).m_paramTempValues "gain" ()
      (33 / 10) = "not_a_number" ∧
    ∃ p : Pass Rat Unit,
      DoRender (demoEnv rejectDigital comboIdle unitInputRejected) demoGraph
        (demoDialog [] [gainParam] (some "not_a_number")) = some (true, p) ∧
      p.trace = [] ∧ p.reconfigured = false ∧
      p.dlg.m_paramTempValues "gain" = some "not_a_number" ∧
      p.dlg.m_channel.m_parameters[0]?
        = some ("gain", { value := ParameterValue.float (33 / 10), m_unit := () }) :=
  ⟨rfl, _, rfl, rfl, rfl, rfl,
    (C6_rejected_edit_keeps_stored_value
      (demoEnv rejectDigital comboIdle unitInputRejected) demoGraph
      (demoDialog [] [gainParam] (some "not_a_number")) 0 "gain"
      { value := ParameterValue.float (33 / 10), m_unit := () } (33 / 10) true _
      rfl rfl (fun j hj => absurd hj (Nat.not_lt_zero j)) rfl rfl).1⟩

/-- C7: in a pass of `DoRender` in which at least one commit went through, when
the filter uses its default name, `SetDefaultName` is called after the writes
and right before `OnFilterReconfigured`, the filter handed to the main window
carries the regenerated name, and both name fields of the dialog equal its
display name; when the filter does not use its default name, `SetDefaultName`
is not called and the name fields and the names of the filter are as the
base-class render left them. -/
theorem C7_default_name_before_notification {D U : Type} (env : Env D U) (g : Graph)
    (dlg : State D U) (b : Bool) (p : Pass D U) (h : DoRender env g dlg = some (b, p))
    (hk : 1 ≤ p.trace.countP Event.isWrite) :
    (p.dlg.m_channel.IsUsingDefaultName = true →
      (∃ ws : List (Event D U), (∀ e ∈ ws, e.isWrite = true) ∧
        p.trace = ws ++ [Event.SetDefaultName, Event.OnFilterReconfigured p.dlg.m_channel]) ∧
      (∃ f0 : Filter D U, p.dlg.m_channel = SetDefaultName env f0 ∧
        p.dlg.m_channel.GetDisplayName = env.defaultName f0) ∧
      p.dlg.base.m_committedDisplayName = p.dlg.m_channel.GetDisplayName ∧
      p.dlg.base.m_displayName = p.dlg.m_channel.GetDisplayName) ∧
    (p.dlg.m_channel.IsUsingDefaultName = false →
      Event.SetDefaultName ∉ p.trace ∧
      p.dlg.base = (startPass env dlg).2.dlg.base ∧
      p.dlg.m_channel.chan = (startPass env dlg).2.dlg.m_channel.chan) := by
  obtain ⟨ws, hw, hshape⟩ := DoRender_shape env g dlg b p h
  rcases hshape with ⟨_, ht, _⟩ | ⟨_, _, hd, ht, ⟨f0, hf0, _⟩, hc, hn⟩ | ⟨_, _, hd, ht, hb, hc⟩
  · rw [ht] at hk
    simp at hk
  · refine ⟨fun _ => ⟨⟨ws, hw, ht⟩, ⟨f0, hf0, ?_⟩, hc, hn⟩, fun hfalse => ?_⟩
    · rw [hf0]
      rfl
    · rw [hd] at hfalse
      cases hfalse
  · refine ⟨fun htrue => ?_, fun _ => ⟨?_, hb, hc⟩⟩
    · rw [hd] at htrue
      cases htrue
    · rw [ht]
      intro hm
      simp only [List.mem_append, List.mem_singleton] at hm
      rcases hm with hm | hm
      · have := hw _ hm
        simp [Event.isWrite] at this
      · cases hm

/-- C7 at a pass in which the user picks a stream for both inputs and types a
new value for the parameter, on a filter that uses its default name. -/
theorem C7_default_name_witness :
    ∃ p : Pass Rat Unit,
      DoRender (demoEnv rejectDigital comboSecond unitInputTyped) demoGraph
        (demoDialog [nullStream, nullStream] [gainParam] none) = some (true, p) ∧
      p.dlg.m_channel.IsUsingDefaultName = true ∧
      p.trace = [Event.SetInput 0 ⟨some 1, 0⟩, Event.SetInput 1 ⟨some 1, 0⟩,
        Event.SetFloatVal 0 "gain" (3 / 2), Event.SetDefaultName,
        Event.OnFilterReconfigured p.dlg.m_channel] ∧
      p.dlg.m_channel.GetDisplayName = "Gain(...)" ∧
      p.dlg.base.m_committedDisplayName = p.dlg.m_channel.GetDisplayName ∧
      p.dlg.base.m_displayName = p.dlg.m_channel.GetDisplayName :=
  ⟨_, rfl, rfl, rfl, by decide,
    ((C7_default_name_before_notification
      (demoEnv rejectDigital comboSecond unitInputTyped) demoGraph
      (demoDialog [nullStream, nullStream] [gainParam] none) true _ rfl (by decide)).1 rfl).2.2⟩

/-- C8: for a filter whose bindings are all accepted by the validator before the
pass, every pass of `DoRender` that returns (every selection read with
`matchingInputs[sel]` lay within the list) keeps the number of inputs, leaves
every binding `i` accepted by `ValidateChannel(i, .)`, and has handed to
`SetInput(i, .)` only elements of the candidate list of input `i`, the catalog
filtered by `ValidateChannel(i, .)`: no stream the validator rejects for input
`i` is written to binding `i`. And `DoRender` does return when every selection
that `Combo` reports lies within the list it was given. -/
theorem C8_bindings_stay_valid {D U : Type} (env : Env D U) (g : Graph) (dlg : State D U)
    (hvalid : ∀ i, i < dlg.m_channel.GetInputCount →
      env.ValidateChannel i (dlg.m_channel.GetInput i) = true) :
    (∀ (b : Bool) (p : Pass D U), DoRender env g dlg = some (b, p) →
      p.dlg.m_channel.GetInputCount = dlg.m_channel.GetInputCount ∧
      (∀ i, i < p.dlg.m_channel.GetInputCount →
        env.ValidateChannel i (p.dlg.m_channel.GetInput i) = true) ∧
      (∀ i x, Event.SetInput i x ∈ p.trace →
        x ∈ (collectCandidates env p.dlg.m_channel i (FindAllStreams g [])).matchingInputs ∧
        x ∈ (FindAllStreams g []).filter (env.ValidateChannel i) ∧
        env.ValidateChannel i x = true)) ∧
    ((∀ i label names sel, (env.Combo i label names sel).ret = true →
        0 ≤ (env.Combo i label names sel).selection ∧
        (env.Combo i label names sel).selection < (names.length : Int)) →
      ∃ (b : Bool) (p : Pass D U), DoRender env g dlg = some (b, p)) := by
  have hin0 : (startPass env dlg).2.dlg.m_channel.m_inputs = dlg.m_channel.m_inputs := rfl
  constructor
  · intro b p h
    rcases DoRender_cases env g dlg b p h with ⟨_, hp⟩ | ⟨_, st, hst, hp⟩
    · rw [hp]
      refine ⟨rfl, hvalid, ?_⟩
      intro i x hx
      rw [(startPass_fresh env dlg).1] at hx
      cases hx
    · obtain ⟨hfi, _, hft⟩ := finishPass_frame env (renderParams env st)
      have hinp : p.dlg.m_channel.m_inputs = st.dlg.m_channel.m_inputs := by
        rw [hp, hfi, renderParams_inputs]
      have hlen : st.dlg.m_channel.m_inputs.length = dlg.m_channel.m_inputs.length := by
        rw [(renderInputs_advances env g _ st hst).2.2.2.1, hin0]
      have hval := renderInputs_valid env g (startPass env dlg).2 st hst hvalid
      refine ⟨?_, ?_, ?_⟩
      · unfold Filter.GetInputCount
        rw [hinp, hlen]
      · intro i hi
        unfold Filter.GetInput
        unfold Filter.GetInputCount at hi
        rw [hinp] at hi ⊢
        rw [hlen] at hi
        exact hval i hi
      · intro i x hx
        rw [hp] at hx
        have h1 : Event.SetInput i x ∈ (renderParams env st).trace := by
          rcases hft _ hx with h | h | h
          · exact h
          · cases h
          · simp [Event.isNotify] at h
        have h2 := renderParams_setInput env st i x h1
        have h3 := renderInputs_writes env g (startPass env dlg).2 st hst
          (by
            intro j y hy
            rw [(startPass_fresh env dlg).1] at hy
            cases hy) i x h2
        rw [collectCandidates_matching]
        exact ⟨h3, h3, (List.mem_filter.1 h3).2⟩
  · intro hrange
    by_cases hb : (startPass env dlg).1 = true
    · obtain ⟨st, hst⟩ := renderInputs_succeeds env g (startPass env dlg).2 hrange
      refine ⟨true, finishPass env (renderParams env st), ?_⟩
      unfold DoRender
      simp [hb, hst]
    · refine ⟨false, (startPass env dlg).2, ?_⟩
      unfold DoRender
      simp [hb]

/-- The user who picks the second entry of a combo box that has one stays
within the list shown. -/
theorem comboSecond_in_range (i : Nat) (label : String) (names : List String) (sel : Int)
    (h : ((demoEnv rejectDigital comboSecond unitInputRejected).Combo i label names sel).ret
      = true) :
    0 ≤ ((demoEnv rejectDigital comboSecond unitInputRejected).Combo i label names sel).selection ∧
    ((demoEnv rejectDigital comboSecond unitInputRejected).Combo i label names sel).selection
      < (names.length : Int) := by
  simp only [demoEnv, comboSecond] at h ⊢
  split at h
  · rename_i hlt
    simp only [hlt, if_true]
    constructor
    · decide
    · exact_mod_cast hlt
  · cases h

/-- C8 at a filter with two unconnected inputs, both accepted by the validator,
and a user who picks the second candidate for both: the pass returns, both
bindings are the first stream of channel 1, and the validator accepts them. -/
theorem C8_bindings_stay_valid_witness :
    (∀ i, i < (demoDialog [nullStream, nullStream] [] none).m_channel.GetInputCount →
      rejectDigital i ((demoDialog [nullStream, nullStream] [] none).m_channel.GetInput i)
        = true) ∧
    ∃ p : Pass Rat Unit,
      DoRender (demoEnv rejectDigital comboSecond unitInputRejected) demoGraph
        (demoDialog [nullStream, nullStream] [] none) = some (true, p) ∧
      p.dlg.m_channel.m_inputs = [⟨some 1, 0⟩, ⟨some 1, 0⟩] ∧
      (∀ i, i < p.dlg.m_channel.GetInputCount →
        rejectDigital i (p.dlg.m_channel.GetInput i) = true) ∧
      ∃ (b : Bool) (q : Pass Rat Unit),
        DoRender (demoEnv rejectDigital comboSecond unitInputRejected) demoGraph
          (demoDialog [nullStream, nullStream] [] none) = some (b, q) :=
  ⟨by decide, _, rfl, rfl,
    ((C8_bindings_stay_valid (demoEnv rejectDigital comboSecond unitInputRejected) demoGraph
      (demoDialog [nullStream, nullStream] [] none) (by decide)).1 true _ rfl).2.1,
    (C8_bindings_stay_valid (demoEnv rejectDigital comboSecond unitInputRejected) demoGraph
      (demoDialog [nullStream, nullStream] [] none) (by decide)).2 comboSecond_in_range⟩

/-- C10, the code at the stored `TYPE_INT` value 2^53 + 1 = 9007199254740993:
the conversion to `double` yields 2^53, so the pending text is seeded from
9007199254740992, not from the stored value; and when the user commits a text
that denotes the stored value, `SetIntVal` is called with 9007199254740992 and
the stored value changes. -/
theorem C10_int_edit_goes_through_double :
    roundToDouble 9007199254740993 = 9007199254740992 ∧
    (∃ p : Pass Rat Unit,
      DoRender (demoEnv rejectDigital comboIdle unitInputRejected) demoGraph
        (demoDialog [] [depthParam] none) = some (true, p) ∧
      p.trace = [] ∧
      p.dlg.m_paramTempValues "depth"
        = some ((demoEnv rejectDigital comboIdle unitInputRejected).PrettyPrint ()
            (9007199254740992 : Rat))) ∧
    (∃ q : Pass Rat Unit,
      DoRender (demoEnv rejectDigital comboIdle unitInputRetyped) demoGraph
        (demoDialog [] [depthParam] none) = some (true, q) ∧
      q.trace = [Event.SetIntVal 0 "depth" 9007199254740992, Event.SetDefaultName,
        Event.OnFilterReconfigured q.dlg.m_channel] ∧
      q.dlg.m_channel.m_parameters
        = [("depth", { value := ParameterValue.int 9007199254740992, m_unit := () })]) :=
  ⟨by decide, ⟨_, rfl, rfl, rfl⟩, ⟨_, rfl, rfl, rfl⟩⟩

end FilterPropertiesDialog
